import Mathlib

/-!
Verification of the PGraph pedigree graph core.

This file shallowly embeds the in-memory relationship graph of the PGraph
pedigree editor: `AbstractPerson` (persons and placeholders), `Partnership`,
and `Disorder`, together with their mutation and traversal algorithms
(`addPartner`, `setGender`, `getStepsToNode`, `canPartnerWith`,
`isDescendantOf`, `isRelatedTo`, `addChild`, `createChild`, `removeChild`,
`remove`, `generateColor`).

Modelling conventions:
* JavaScript objects live in a heap; we model the heap as two association
  lists (`persons`, `partnerships`) keyed by numeric identity.  Object
  identity coincides with the node id produced by `editor.generateID()`,
  modelled by the monotone counter `nextId`.
* The external editor registry (`editor.addNode` / `editor.removeNode` /
  `editor.removePartnership`) is modelled by the `registry` list of live ids.
* Graphics calls are external; the only graphics state the algorithms read
  back is a node's canvas position (stored as `x`, `y` here, rationals so
  that the midpoint division in `addPartner` is exact) and the child
  connection handle `parentConnection` (a line object or `null`; modelled as
  a `Bool`, since the code only ever calls `.remove()` on it, which throws a
  `TypeError` when it is `null`).
* Recursive traversals are given a `fuel` argument bounding the call depth;
  running out of fuel is distinguished from a thrown `TypeError`
  (`Err.typeError`) where the result type is `Except`, or yields `none`
  where it is `Option`.
* Genders are the enum `Gender`; the source's strings "M"/"F"/"U" map
  one-to-one onto it, and `parseGender` on an already-canonical gender is
  the identity.
-/

/-- Gender of a node: the source strings "M", "F", "U". -/
inductive Gender where
  | M : Gender
  | F : Gender
  | U : Gender
deriving DecidableEq

/-- Node kind: a real person (`getType() == 'pn'`) or a placeholder
(`getType() == 'ph'`). -/
inductive NKind where
  | pn : NKind
  | ph : NKind
deriving DecidableEq

/-- Errors an embedded operation can produce: `fuel` signals that the fuel
bound on recursion depth was reached, `typeError` models a thrown JavaScript
`TypeError` (e.g. dereferencing `undefined` or calling `.remove()` on a
`null` parent connection). -/
inductive Err where
  | fuel : Err
  | typeError : Err
deriving DecidableEq

/-- The fields of an `AbstractPerson` that the graph algorithms touch:
`_gender`, `_partnerships` (ids of `Partnership` objects), and
`_parentPartnership`; plus the node kind, the graphics-owned canvas
position, and whether `parentConnection` is set (non-null). -/
structure PersonData where
  gender : Gender
  partnerships : List Nat
  parentPartnership : Option Nat
  kind : NKind
  parentConnection : Bool
  x : Rat
  y : Rat
deriving DecidableEq

/-- The fields of a `Partnership`: the positionally stored partner pair
`_partners`, the two children buckets `_children[0]` (persons) and
`_children[1]` (placeholders), and the graphics position. -/
structure PartnershipData where
  partner1 : Nat
  partner2 : Nat
  childrenPn : List Nat
  childrenPh : List Nat
  x : Rat
  y : Rat
deriving DecidableEq

/-- The whole graph state: the heap of person and partnership objects
(association lists keyed by object identity), the editor's registry of live
node ids, and the id/allocation counter behind `editor.generateID()`. -/
structure GState where
  persons : List (Nat × PersonData)
  partnerships : List (Nat × PartnershipData)
  registry : List Nat
  nextId : Nat
deriving DecidableEq

/-- First-match association-list lookup (JavaScript object identity is
unique, so at most one binding per key arises in reachable states). -/
def alookup {α : Type} : Nat → List (Nat × α) → Option α
  | _, [] => none
  | k, (i, v) :: rest => if i = k then some v else alookup k rest

/-- Dummy person record used to totalize heap reads; every theorem about a
person carries enough hypotheses that the dummy is never observed. -/
def personDefault : PersonData :=
  { gender := .U, partnerships := [], parentPartnership := none,
    kind := .pn, parentConnection := false, x := 0, y := 0 }

/-- Read a person object from the heap. -/
def getP (s : GState) (p : Nat) : PersonData :=
  (alookup p s.persons).getD personDefault

/-- Read a partnership object from the heap (`none` models a dangling
reference). -/
def getPr (s : GState) (i : Nat) : Option PartnershipData :=
  alookup i s.partnerships

/-- Apply a field update to the person object with identity `p`. -/
def updPerson (s : GState) (p : Nat) (f : PersonData → PersonData) : GState :=
  { s with persons := s.persons.map (fun e => if e.1 = p then (e.1, f e.2) else e) }

/-- Apply a field update to the partnership object with identity `i`. -/
def updPartnership (s : GState) (i : Nat) (f : PartnershipData → PartnershipData) : GState :=
  { s with partnerships := s.partnerships.map (fun e => if e.1 = i then (e.1, f e.2) else e) }

/-- `AbstractPerson.setParentPartnership` (abstractPerson, lines 152-154). -/
def setParentP (s : GState) (p : Nat) (v : Option Nat) : GState :=
  updPerson s p (fun d => { d with parentPartnership := v })

/-- Write a person's `_gender` field (the assignment inside `setGender`). -/
def setGenderOnly (s : GState) (p : Nat) (g : Gender) : GState :=
  updPerson s p (fun d => { d with gender := g })

/-- Write a person's `parentConnection` handle. -/
def setConn (s : GState) (p : Nat) (b : Bool) : GState :=
  updPerson s p (fun d => { d with parentConnection := b })

/-- `AbstractPerson.parseGender`: the canonical genders parse to themselves
(an unrecognized string would default to "U", but only canonical genders
flow through the embedded algorithms). -/
def parseGender (g : Gender) : Gender := g

/-- `AbstractPerson.getOppositeGender` (lines 197-207). -/
def getOppositeGender : Gender → Gender
  | .U => .U
  | .M => .F
  | .F => .M

/-- `Partnership.getPartnerOf(someNode)` (partnership source, lines 76-86):
the other member of the pair, or `null` when `someNode` is not a partner. -/
def getPartnerOf (s : GState) (i : Nat) (me : Nat) : Option Nat :=
  match getPr s i with
  | none => none
  | some d =>
    if me = d.partner1 then some d.partner2
    else if me = d.partner2 then some d.partner1
    else none

/-- `AbstractPerson.getPartners` (lines 110-118): the non-null
`getPartnerOf` results over the partnership list. -/
def getPartners (s : GState) (p : Nat) : List Nat :=
  (getP s p).partnerships.filterMap (fun i => getPartnerOf s i p)

/-- `AbstractPerson.getPartnership(partner)` (lines 97-105): the first
partnership whose `getPartnerOf(this)` is `partner`. -/
def getPartnership (s : GState) (p q : Nat) : Option Nat :=
  (getP s p).partnerships.find? (fun i => getPartnerOf s i p == some q)

/-- `AbstractPerson.addPartnership` (lines 125-129): push unless a
partnership with the same resulting partner is already present. -/
def addPartnershipP (s : GState) (p : Nat) (i : Nat) : GState :=
  let t := getPartnerOf s i p
  let isMem : Bool := match t with
    | some q => decide (q ∈ getPartners s p)
    | none => false
  if isMem then s
  else updPerson s p (fun d => { d with partnerships := d.partnerships ++ [i] })

/-- `AbstractPerson.removePartnership` (lines 136-138): `without` removes
every occurrence of the partnership. -/
def removePartnershipP (s : GState) (p : Nat) (i : Nat) : GState :=
  updPerson s p (fun d => { d with partnerships := d.partnerships.filter (fun j => decide (j ≠ i)) })

/-- `AbstractPerson.getParents` (lines 159-164): the parent partnership's
two partners, or `null`. -/
def getParents (s : GState) (p : Nat) : Option (Nat × Nat) :=
  match (getP s p).parentPartnership with
  | none => none
  | some i =>
    match getPr s i with
    | none => none
    | some d => some (d.partner1, d.partner2)

/-- `Partnership.getChildren()` with no filter (partnership source,
lines 100-108): `this._children.flatten()`, persons first. -/
def getChildrenAll (s : GState) (i : Nat) : List Nat :=
  match getPr s i with
  | none => []
  | some d => d.childrenPn ++ d.childrenPh

/-- `Partnership.getChildren('ph')`: the placeholder bucket. -/
def getChildrenPh (s : GState) (i : Nat) : List Nat :=
  match getPr s i with
  | none => []
  | some d => d.childrenPh

/-- `Partnership.hasChild(someNode)` (lines 115-117). -/
def hasChild (s : GState) (i : Nat) (c : Nat) : Prop :=
  c ∈ getChildrenAll s i

instance (s : GState) (i c : Nat) : Decidable (hasChild s i c) := by
  unfold hasChild; infer_instance

/-- `AbstractPerson.getChildren` (lines 257-263): concatenation of the
children of all of this node's partnerships. -/
def personChildren (s : GState) (p : Nat) : List Nat :=
  (getP s p).partnerships.foldl (fun acc i => acc ++ getChildrenAll s i) []

/-- `new Partnership(x, y, partner1, partner2)` (partnership source,
lines 13-22).  The guard proceeds when at least ONE supplied partner is a
non-placeholder; in that case the partner pair and empty children buckets
are stored, the partnership registers itself with both partners, and the
base `Node` contract assigns id and position.  When BOTH partners are
placeholders the initializer body is skipped entirely; JavaScript `new`
still yields a (never-initialized) object, whose identity we model by
bumping the allocation counter without storing any record. -/
def partnershipNew (s : GState) (x y : Rat) (p1 p2 : Nat) : GState × Nat :=
  let i := s.nextId
  if (getP s p1).kind ≠ .ph ∨ (getP s p2).kind ≠ .ph then
    let d : PartnershipData :=
      { partner1 := p1, partner2 := p2, childrenPn := [], childrenPh := [], x := x, y := y }
    let s1 : GState :=
      { s with partnerships := s.partnerships ++ [(i, d)], nextId := s.nextId + 1 }
    let s2 := addPartnershipP s1 p1 i
    let s3 := addPartnershipP s2 p2 i
    (s3, i)
  else
    ({ s with nextId := s.nextId + 1 }, i)

example :
    getPartners ⟨[(0, personDefault)], [], [0], 1⟩ 0 = [] := by decide

/-- The `each` loop inside `AbstractPerson.setGender` (lines 76-80):
partners not yet in the visited array receive the opposite of `me`'s (just
updated, re-read from the current state) gender; the visited array is
threaded through because the source mutates it in place.  `rec` stands for
the recursive `partner.setGender(...)` call. -/
def setGenderLoop (rec : GState → Nat → Gender → List Nat → Option (GState × List Nat))
    (me : Nat) : GState → List Nat → List Nat → Option (GState × List Nat)
  | s, [], visited => some (s, visited)
  | s, q :: rest, visited =>
    if q ∈ visited then setGenderLoop rec me s rest visited
    else
      match rec s q (getOppositeGender (getP s me).gender) visited with
      | none => none
      | some (s', v') => setGenderLoop rec me s' rest v'

/-- `AbstractPerson.setGender(gender, forceDraw, visitedNodes)`
(lines 65-83).  `forceDraw` only gates external graphics calls.  Fuel bounds
the propagation depth; `none` means the bound was reached. -/
def setGenderF : Nat → GState → Nat → Gender → Bool → List Nat → Option (GState × List Nat)
  | 0, _, _, _, _, _ => none
  | fuel + 1, s, me, g, forceDraw, visitedIn =>
    let visited := visitedIn ++ [me]
    if (getPartners s me).length = 0 then
      some (setGenderOnly s me (parseGender g), visited)
    else if (getP s me).gender = .U then
      let s1 := setGenderOnly s me (parseGender g)
      setGenderLoop (fun s' q g' v => setGenderF fuel s' q g' forceDraw v)
        me s1 (getPartners s1 me) visited
    else
      some (s, visited)

/-- The `each` loop of `AbstractPerson.getStepsToNode` (lines 437-445):
skip visited partners, recurse into the rest (threading the shared visited
array), and `throw $break` with `1 + numSteps` on the first partner that
reaches the target. -/
def stepsLoop (rec : Nat → List Nat → Option (Option Nat × List Nat)) :
    List Nat → List Nat → Option (Option Nat × List Nat)
  | [], visited => some (none, visited)
  | q :: rest, visited =>
    if q ∈ visited then stepsLoop rec rest visited
    else
      match rec q visited with
      | none => none
      | some (some k, v') => some (some (k + 1), v')
      | some (none, v') => stepsLoop rec rest v'

/-- `AbstractPerson.getStepsToNode(otherNode, visitedNodes)`
(lines 429-448): depth-first search over the partner graph only, returning
the number of partnerships on the discovered path (`null` when unreachable)
together with the visited array. -/
def getStepsToNodeF : Nat → GState → Nat → Nat → List Nat → Option (Option Nat × List Nat)
  | 0, _, _, _, _ => none
  | fuel + 1, s, me, other, visitedIn =>
    let visited := visitedIn ++ [me]
    if me = other then some (some 0, visited)
    else stepsLoop (fun q v => getStepsToNodeF fuel s q other v) (getPartners s me) visited

/-- `AbstractPerson.canPartnerWith(otherNode)` (lines 356-361): genders
must be compatible (opposite, or at least one Unknown) and the number of
partner-to-partner steps must be `null` or odd. -/
def canPartnerWithF (fuel : Nat) (s : GState) (p q : Nat) : Option Bool :=
  let oppositeGender : Bool :=
    decide (getOppositeGender (getP s p).gender = (getP s q).gender ∨
      (getP s p).gender = .U ∨ (getP s q).gender = .U)
  match getStepsToNodeF fuel s p q [] with
  | none => none
  | some (numSteps, _) =>
    let oddStepsAway : Bool :=
      match numSteps with
      | none => true
      | some k => decide (k % 2 = 1)
    some (oppositeGender && oddStepsAway)

/-- The x-coordinate computed on lines 235-237 of `addPartner`:
`distanceX + min(this.getX(), partner.getX())` with
`distanceX = |partner.getX() - this.getX()| / 2`. -/
def midpointX (s : GState) (p q : Nat) : Rat :=
  let distanceX := |(getP s q).x - (getP s p).x| / 2
  if (getP s q).x > (getP s p).x then distanceX + (getP s p).x
  else distanceX + (getP s q).x

/-- The y-coordinate computed on lines 236-238 of `addPartner`. -/
def midpointY (s : GState) (p q : Nat) : Rat :=
  let distanceY := |(getP s q).y - (getP s p).y| / 2
  if (getP s q).y > (getP s p).y then distanceY + (getP s p).y
  else distanceY + (getP s q).y

/-- The one-directional gender inference on lines 242-247 of `addPartner`:
when exactly one side is Unknown, set it to the opposite of the other side
(with propagation, visited list starting `null`). -/
def genderInfer (fuel : Nat) (s1 : GState) (p q : Nat) : Option (GState × List Nat) :=
  if (getP s1 p).gender = .U ∧ (getP s1 q).gender ≠ .U then
    setGenderF fuel s1 p (getOppositeGender (getP s1 q).gender) true []
  else if (getP s1 p).gender ≠ .U ∧ (getP s1 q).gender = .U then
    setGenderF fuel s1 q (getOppositeGender (getP s1 p).gender) true []
  else some (s1, [])

/-- `AbstractPerson.addPartner(partner)` (lines 229-251): return the
existing partnership when already partnered; otherwise, when
`canPartnerWith` holds, construct a `Partnership` at the midpoint of the
two positions and run one-directional gender inference.  On the invalid
path the source returns `undefined` (here `none`) without mutating. -/
def addPartnerF (fuel : Nat) (s : GState) (p q : Nat) : Option (GState × Option Nat) :=
  if q ∈ getPartners s p then some (s, getPartnership s p q)
  else
    match canPartnerWithF fuel s p q with
    | none => none
    | some false => some (s, none)
    | some true =>
      let r := partnershipNew s (midpointX s p q) (midpointY s p q) p q
      match genderInfer fuel r.1 p q with
      | none => none
      | some (s2, _) => some (s2, some r.2)

/-- The `while` loop of `AbstractPerson.isDescendantOf` (lines 287-290):
scan `other`'s children until one recursive call returns true.  `rec`
stands for `this.isDescendantOf(children[i])`. -/
def descSearch (rec : Nat → Option Bool) : List Nat → Option Bool
  | [] => some false
  | c :: rest =>
    match rec c with
    | none => none
    | some true => some true
    | some false => descSearch rec rest

/-- `AbstractPerson.isDescendantOf(otherNode)` (lines 279-293): true when
`otherNode` is a direct parent, else recurse through `otherNode`'s
children.  Fuel bounds the recursion depth. -/
def isDescendantOfF : Nat → GState → Nat → Nat → Option Bool
  | 0, _, _, _ => none
  | fuel + 1, s, me, other =>
    if me ∈ personChildren s other then some true
    else descSearch (fun c => isDescendantOfF fuel s me c) (personChildren s other)

/-- `AbstractPerson.isAncestorOf(otherNode)` (lines 300-302):
`otherNode.isDescendantOf(this)`. -/
def isAncestorOfF (fuel : Nat) (s : GState) (me other : Nat) : Option Bool :=
  isDescendantOfF fuel s other me

/-- The `getPersonNeighbors` helper of `AbstractPerson.isRelatedTo`
(lines 319-325): parent partnership's two partners, then children, then
partners.  The source calls `getPartner1()`/`getPartner2()`, which are
modelled from the spec as the two members of the partner pair. -/
def getPersonNeighbors (s : GState) (p : Nat) : List Nat :=
  (match (getP s p).parentPartnership with
   | none => []
   | some i =>
     match getPr s i with
     | none => []
     | some d => [d.partner1, d.partner2]) ++
  personChildren s p ++ getPartners s p

/-- The inner `for (var k = 0; i < neighbors.length; k++)` loop of
`isRelatedTo` (lines 334-342).  Its condition compares the OUTER frontier
index `i`, not `k`, so once entered it never exits normally: it walks the
whole neighbor array (returning true if `otherNode` occurs, updating the
visited map and `next` queue along the way) and then evaluates
`neighbors[k].getID()` on an out-of-bounds `undefined` element, which
throws a `TypeError` (`Except.error ()`). -/
def relScanK (other : Nat) : List Nat → List Nat → List Nat → Except Unit Bool
  | [], _, _ => .error ()
  | n :: rest, visited, next =>
    if n = other then .ok true
    else if n ∈ visited then relScanK other rest visited next
    else relScanK other rest (visited ++ [n]) (next ++ [n])

/-- The outer `for (var i = 0; i < front.length; i++)` loop of
`isRelatedTo` (lines 332-343): the inner scan runs only when the (fixed)
outer index `i` is below the current neighbor count; otherwise the next
frontier entry is tried.  `.ok none` means the loop finished without the
inner scan resolving. -/
def relForI (s : GState) (other : Nat) :
    List Nat → Nat → List Nat → List Nat → Except Unit (Option Bool)
  | [], _, _, _ => .ok none
  | f :: rest, i, visited, next =>
    let neighbors := getPersonNeighbors s f
    if i < neighbors.length then
      match relScanK other neighbors visited next with
      | .error e => .error e
      | .ok b => .ok (some b)
    else relForI s other rest (i + 1) visited next

/-- `AbstractPerson.isRelatedTo(otherNode)` (lines 318-349).  The `while`
loop runs at most once: `front.clear(); front = next; next.clear();`
aliases `front` to `next` and then empties both arrays, so after the first
pass the frontier is empty and the function returns false — unless the
inner scan already returned true or threw a `TypeError`. -/
def isRelatedTo (s : GState) (me other : Nat) : Except Unit Bool :=
  match relForI s other [me] 0 [me] [] with
  | .error e => .error e
  | .ok (some b) => .ok b
  | .ok none => .ok false

example :
    let s0 : GState :=
      { persons := [(0, personDefault), (1, { personDefault with kind := .ph })],
        partnerships := [], registry := [0, 1], nextId := 2 }
    (partnershipNew s0 0 0 0 1).2 = 2 ∧
      (getP (partnershipNew s0 0 0 0 1).1 0).partnerships = [2] := by decide

example :
    let s0 : GState :=
      { persons := [(0, { personDefault with gender := .M }),
                    (1, { personDefault with gender := .F })],
        partnerships := [], registry := [0, 1], nextId := 2 }
    canPartnerWithF 3 s0 0 1 = some true ∧
      (addPartnerF 3 s0 0 1).map (fun r => r.2) = some (some 2) := by decide

/-- `Partnership.removeChild(someNode)` (partnership source,
lines 162-168): clear the child's parent reference, drop it from the
bucket selected by `+(someNode.getType() == 'ph')`, then call
`someNode.parentConnection.remove()` — a `TypeError` when the connection
is `null` — and null the handle. -/
def removeChildP (s : GState) (i : Nat) (c : Nat) : Except Err GState :=
  let s1 := setParentP s c none
  let s2 :=
    if (getP s1 c).kind = .ph then
      updPartnership s1 i (fun d => { d with childrenPh := d.childrenPh.filter (fun j => decide (j ≠ c)) })
    else
      updPartnership s1 i (fun d => { d with childrenPn := d.childrenPn.filter (fun j => decide (j ≠ c)) })
  if (getP s2 c).parentConnection then .ok (setConn s2 c false)
  else .error .typeError

/-- A pending call in the mutually recursive removal cascade:
`AbstractPerson.remove(isRecursive, removeVisuals)` or
`Partnership.remove(isRecursive)`. -/
inductive RemCall where
  | person (me : Nat) (isRecursive removeVisuals : Bool) : RemCall
  | partnership (i : Nat) (isRecursive : Bool) : RemCall

/-- The children loop of `Partnership.remove` (lines 177-183): over a
snapshot of the flattened children, clear the parent reference, call
`removeChild`, and fully remove placeholder children.  `rec` stands for the
fuel-limited removal dispatcher. -/
def prChildrenLoop (rec : GState → RemCall → Except Err GState) (i : Nat) :
    GState → List Nat → Except Err GState
  | s, [] => .ok s
  | s, c :: rest =>
    let s1 := setParentP s c none
    match removeChildP s1 i c with
    | .error e => .error e
    | .ok s2 =>
      if (getP s2 c).kind = .ph then
        match rec s2 (.person c false true) with
        | .error e => .error e
        | .ok s3 => prChildrenLoop rec i s3 rest
      else prChildrenLoop rec i s2 rest

/-- The inner children scan of `AbstractPerson.remove` (lines 392-394):
placeholder children are removed with visuals, real children are queued in
`toRemove`. -/
def remChildrenScan (rec : GState → RemCall → Except Err GState) :
    GState → List Nat → List Nat → Except Err (GState × List Nat)
  | s, [], acc => .ok (s, acc)
  | s, c :: rest, acc =>
    if (getP s c).kind = .ph then
      match rec s (.person c false true) with
      | .error e => .error e
      | .ok s1 => remChildrenScan rec s1 rest acc
    else remChildrenScan rec s rest (acc ++ [c])

/-- The partnerships loop of `AbstractPerson.remove` (lines 391-398): for
each partnership (snapshot of the list — `removePartnership` replaces the
array, so iteration sees the old one) process its children, remove a
placeholder partner (`partner.getType()` throws when `getPartnerOf`
returned `null`), then remove the partnership itself (no argument, hence
non-recursively). -/
def remPartnershipsLoop (rec : GState → RemCall → Except Err GState) (me : Nat) :
    GState → List Nat → List Nat → Except Err (GState × List Nat)
  | s, [], acc => .ok (s, acc)
  | s, i :: rest, acc =>
    match remChildrenScan rec s (getChildrenAll s i) acc with
    | .error e => .error e
    | .ok r1 =>
      match getPartnerOf r1.1 i me with
      | none => .error .typeError
      | some w =>
        let step : Except Err GState :=
          if (getP r1.1 w).kind = .ph then rec r1.1 (.person w false true) else .ok r1.1
        match step with
        | .error e => .error e
        | .ok s2 =>
          match rec s2 (.partnership i false) with
          | .error e => .error e
          | .ok s3 => remPartnershipsLoop rec me s3 rest r1.2

/-- The recursive pruning loop of `AbstractPerson.remove` (lines 399-401):
each queued child still related to `me` is kept, the rest are removed
recursively.  `isRelatedTo` can throw (see `relScanK`); the exception
propagates. -/
def remRecursiveLoop (rec : GState → RemCall → Except Err GState)
    (me : Nat) (removeVisuals : Bool) : GState → List Nat → Except Err GState
  | s, [] => .ok s
  | s, n :: rest =>
    match isRelatedTo s n me with
    | .error _ => .error .typeError
    | .ok b =>
      if b then remRecursiveLoop rec me removeVisuals s rest
      else
        match rec s (.person n true removeVisuals) with
        | .error e => .error e
        | .ok s1 => remRecursiveLoop rec me removeVisuals s1 rest

/-- `AbstractPerson.remove(isRecursive, removeVisuals)` (lines 383-405),
with `rec` standing for the fuel-limited dispatcher used for every nested
`remove` call: remove placeholder parents, walk the partnerships (queuing
real children), optionally prune unrelated queued children, release this
node from its parent partnership, and deregister it from the editor.
`removeVisuals` only gates external graphics calls. -/
def personRemoveBody (rec : GState → RemCall → Except Err GState)
    (s : GState) (me : Nat) (isRecursive removeVisuals : Bool) : Except Err GState :=
  let parents := getParents s me
  let stepParents : Except Err GState :=
    match parents with
    | none => .ok s
    | some (a, b) =>
      let sa : Except Err GState :=
        if (getP s a).kind = .ph then rec s (.person a false true) else .ok s
      match sa with
      | .error e => .error e
      | .ok s1 => if (getP s1 b).kind = .ph then rec s1 (.person b false true) else .ok s1
  match stepParents with
  | .error e => .error e
  | .ok sA =>
    match remPartnershipsLoop rec me sA ((getP sA me).partnerships) [] with
    | .error e => .error e
    | .ok rB =>
      let stepRec : Except Err GState :=
        if isRecursive then remRecursiveLoop rec me removeVisuals rB.1 rB.2 else .ok rB.1
      match stepRec with
      | .error e => .error e
      | .ok sC =>
        let stepParentRel : Except Err GState :=
          match (getP sC me).parentPartnership with
          | some i => removeChildP sC i me
          | none => .ok sC
        match stepParentRel with
        | .error e => .error e
        | .ok sD => .ok { sD with registry := sD.registry.filter (fun j => decide (j ≠ me)) }

/-- `Partnership.remove($super, isRecursive)` (partnership source,
lines 170-188).  The recursive form delegates to `AbstractNode.remove`,
which only touches graphics (no graph-state change).  The non-recursive
form deregisters from the editor, unlinks every child (removing
placeholders entirely), and removes itself from both partners' partnership
lists.  A dangling partnership reference (`getPr` none) would be a
method call on `undefined` in the source, modelling as a `TypeError`. -/
def partnershipRemoveBody (rec : GState → RemCall → Except Err GState)
    (s : GState) (i : Nat) (isRecursive : Bool) : Except Err GState :=
  if isRecursive then .ok s
  else
    match getPr s i with
    | none => .error .typeError
    | some _ =>
      let s1 : GState := { s with registry := s.registry.filter (fun j => decide (j ≠ i)) }
      match prChildrenLoop rec i s1 (getChildrenAll s1 i) with
      | .error e => .error e
      | .ok s2 =>
        match getPr s2 i with
        | none => .error .typeError
        | some d =>
          let s3 := removePartnershipP s2 d.partner1 i
          let s4 := removePartnershipP s3 d.partner2 i
          .ok s4

/-- Fuel-limited dispatcher tying the mutually recursive `remove` methods
of `AbstractPerson` and `Partnership` together; fuel bounds the nesting
depth of `remove` calls. -/
def removeF : Nat → GState → RemCall → Except Err GState
  | 0, _, _ => .error .fuel
  | fuel + 1, s, .person me isRecursive removeVisuals =>
    personRemoveBody (removeF fuel) s me isRecursive removeVisuals
  | fuel + 1, s, .partnership i isRecursive =>
    partnershipRemoveBody (removeF fuel) s i isRecursive

/-- `AbstractPerson.remove` entry point. -/
def personRemoveF (fuel : Nat) (s : GState) (me : Nat) (isRecursive removeVisuals : Bool) :
    Except Err GState :=
  removeF fuel s (.person me isRecursive removeVisuals)

/-- `Partnership.remove` entry point. -/
def partnershipRemoveF (fuel : Nat) (s : GState) (i : Nat) (isRecursive : Bool) :
    Except Err GState :=
  removeF fuel s (.partnership i isRecursive)

/-- The placeholder purge of `Partnership.addChild` (line 146-148):
`this.getChildren('ph').each(function(child){ child.remove(); })` —
`remove` with no arguments is non-recursive and without visuals. -/
def purgeLoop (rec : GState → RemCall → Except Err GState) :
    GState → List Nat → Except Err GState
  | s, [] => .ok s
  | s, c :: rest =>
    match rec s (.person c false false) with
    | .error e => .error e
    | .ok s1 => purgeLoop rec s1 rest

/-- `Partnership.addChild(someNode)` (partnership source, lines 143-154):
a no-op returning `someNode` when it is already a recorded child or
already has a parent partnership; otherwise purge placeholder children,
push into the bucket matching the node's kind, establish the visual parent
connection, and set the back-reference. -/
def addChildF (fuel : Nat) (s : GState) (i : Nat) (c : Nat) : Except Err (GState × Nat) :=
  if hasChild s i c then .ok (s, c)
  else
    match alookup c s.persons with
    | none => .error .typeError
    | some cd =>
      if cd.parentPartnership ≠ none then .ok (s, c)
      else
        match purgeLoop (removeF fuel) s (getChildrenPh s i) with
        | .error e => .error e
        | .ok s1 =>
          let s2 :=
            if (getP s1 c).kind = .ph then
              updPartnership s1 i (fun d => { d with childrenPh := d.childrenPh ++ [c] })
            else
              updPartnership s1 i (fun d => { d with childrenPn := d.childrenPn ++ [c] })
          let s3 := setConn s2 c true
          let s4 := setParentP s3 c (some i)
          .ok (s4, c)

/-- Modelled from the spec: `editor.addNode(x, y, gender, isPlaceHolder)`
is the external graph context's node factory — it constructs a Person or
PlaceHolder (fresh id, no parents, no partnerships) that is "already
registered" with the editor (spec §6). -/
def editorAddNode (s : GState) (x y : Rat) (g : Gender) (isPh : Bool) : GState × Nat :=
  let n := s.nextId
  let d : PersonData :=
    { gender := g, partnerships := [], parentPartnership := none,
      kind := if isPh then .ph else .pn, parentConnection := false, x := x, y := y }
  ({ s with persons := s.persons ++ [(n, d)], registry := s.registry ++ [n],
            nextId := n + 1 }, n)

/-- Modelled from the spec: `PlaceHolder.convertToPerson()` is defined in
the PlaceHolder class, which is not among the provided sources; per the
spec it converts the placeholder "in place to a real person (consuming the
placeholder)" and returns it.  We flip the node's kind and move its id
from the placeholder bucket to the person bucket of its parent
partnership. -/
def convertToPersonS (s : GState) (c : Nat) : GState × Nat :=
  let s1 := updPerson s c (fun d => { d with kind := .pn })
  let s2 :=
    match (getP s1 c).parentPartnership with
    | none => s1
    | some i =>
      updPartnership s1 i (fun d =>
        { d with childrenPh := d.childrenPh.filter (fun j => decide (j ≠ c)),
                 childrenPn := d.childrenPn ++ [c] })
  (s2, c)

/-- `Partnership.createChild(isPlaceHolder)` (partnership source,
lines 124-135): when the FIRST element of the flattened children list is a
placeholder, convert it in place; otherwise ask the external layout oracle
for a position (modelled by the `ox`, `oy` arguments), create a new node of
Unknown gender through the editor, attach it with `addChild`, and fire the
external child-added event. -/
def createChildF (fuel : Nat) (s : GState) (i : Nat) (isPlaceHolder : Bool)
    (ox oy : Rat) : Except Err (GState × Nat) :=
  match getChildrenAll s i with
  | c0 :: _ =>
    if (getP s c0).kind = .ph then
      .ok (convertToPersonS s c0)
    else
      let r := editorAddNode s ox oy .U isPlaceHolder
      addChildF fuel r.1 i r.2
  | [] =>
    let r := editorAddNode s ox oy .U isPlaceHolder
    addChildF fuel r.1 i r.2

/-- The fixed colorblind-safe preference palette of
`Disorder.generateColor` (disorder source, line 312). -/
def prefColorsList : List String := ["#FEE090", "#E0F3F8", "#91BFDB", "#4575B4"]

/-- The `while` regeneration loop of `Disorder.generateColor`
(lines 320-323): draw pseudo-random colors (the stream `rnd` models
`Raphael.getColor()` followed by the `Math.random()` hex generator) until
one is neither exact white nor already in use.  Fuel bounds the retries. -/
def generateColorLoop : Nat → List String → (Nat → String) → Nat → Option String
  | 0, _, _, _ => none
  | f + 1, used, rnd, k =>
    let c := rnd k
    if c = "#ffffff" ∨ c ∈ used then generateColorLoop f used rnd (k + 1) else some c

/-- `Disorder.generateColor()` (disorder source, lines 307-327): reuse the
color registered for this disorder id in the external legend (modelled as
the association list `legend`); else take the first preference color not in
use; else pseudo-randomly generate an acceptable color. -/
def generateColor (legend : List (Nat × String)) (did : Nat) (rnd : Nat → String)
    (fuel : Nat) : Option String :=
  match alookup did legend with
  | some c => some c
  | none =>
    let usedColors := legend.map Prod.snd
    let pref := usedColors.foldl (fun acc c => acc.filter (fun x => decide (x ≠ c))) prefColorsList
    match pref with
    | c :: _ => some c
    | [] => generateColorLoop fuel usedColors rnd 0

example :
    generateColor [(7, "blue")] 7 (fun _ => "#ffffff") 3 = some "blue" := by decide

example :
    let pChild : PersonData := ⟨.U, [], some 1, .pn, true, 0, 0⟩
    let phChild : PersonData := ⟨.U, [], some 1, .ph, true, 0, 0⟩
    let s0 : GState :=
      ⟨[(0, personDefault), (2, pChild), (3, phChild)],
       [(1, ⟨0, 0, [2], [3], 0, 0⟩)], [0, 1, 2, 3], 4⟩
    (partnershipRemoveF 5 s0 1 false).toOption.map (fun t => (getP t 0).partnerships) =
      some [] := by decide

/-! ### Generic lemmas about the association-list heap -/

theorem alookup_append {α : Type} (k : Nat) (l1 l2 : List (Nat × α)) :
    alookup k (l1 ++ l2) =
      match alookup k l1 with
      | some v => some v
      | none => alookup k l2 := by
  induction l1 with
  | nil => simp [alookup]
  | cons e rest ih =>
    by_cases he : e.1 = k
    · simp [alookup, he]
    · simp [alookup, he, ih]

theorem alookup_none_of_lt {α : Type} (k : Nat) (l : List (Nat × α))
    (h : ∀ e ∈ l, e.1 < k) : alookup k l = none := by
  induction l with
  | nil => rfl
  | cons e rest ih =>
    have h1 : e.1 < k := h e (by simp)
    have : e.1 ≠ k := Nat.ne_of_lt h1
    simp [alookup, this]
    exact ih (fun e' he' => h e' (by simp [he']))

theorem alookup_mem {α : Type} (k : Nat) (v : α) (l : List (Nat × α))
    (h : alookup k l = some v) : (k, v) ∈ l := by
  induction l with
  | nil => simp [alookup] at h
  | cons e rest ih =>
    obtain ⟨i, w⟩ := e
    by_cases he : i = k
    · simp [alookup, he] at h
      subst he h
      exact List.mem_cons_self _ _
    · simp [alookup, he] at h
      exact List.mem_cons_of_mem _ (ih h)

theorem alookup_map_upd {α : Type} (l : List (Nat × α)) (p q : Nat) (f : α → α) :
    alookup q (l.map (fun e => if e.1 = p then (e.1, f e.2) else e)) =
      if q = p then (alookup q l).map f else alookup q l := by
  induction l with
  | nil => by_cases h : q = p <;> simp [alookup, h]
  | cons e rest ih =>
    obtain ⟨i, w⟩ := e
    simp only [List.map_cons]
    by_cases he : i = p <;> by_cases hq : i = q
    · have hqp : q = p := by rw [← hq, he]
      rw [if_pos he]
      show (if i = q then some (f w) else _) = _
      rw [if_pos hq, if_pos hqp]
      show _ = (if i = q then some w else alookup q rest).map f
      rw [if_pos hq]
      rfl
    · have hqp : q ≠ p := fun hc => hq (by rw [he, ← hc])
      rw [if_pos he]
      show (if i = q then some (f w) else alookup q (rest.map _)) = _
      rw [if_neg hq, ih, if_neg hqp, if_neg hqp]
      show alookup q rest = (if i = q then some w else alookup q rest)
      rw [if_neg hq]
    · have hqp : q ≠ p := fun hc => he (by rw [hq, hc])
      rw [if_neg he]
      show (if i = q then some w else _) = _
      rw [if_pos hq, if_neg hqp]
      show _ = (if i = q then some w else alookup q rest)
      rw [if_pos hq]
    · rw [if_neg he]
      show (if i = q then some w else alookup q (rest.map _)) = _
      rw [if_neg hq, ih]
      by_cases hqp : q = p
      · rw [if_pos hqp, if_pos hqp]
        show (alookup q rest).map f = ((if i = q then some w else alookup q rest).map f)
        rw [if_neg hq]
      · rw [if_neg hqp, if_neg hqp]
        show alookup q rest = (if i = q then some w else alookup q rest)
        rw [if_neg hq]

theorem getP_updPerson_ne (s : GState) (p q : Nat) (f : PersonData → PersonData)
    (h : q ≠ p) : getP (updPerson s p f) q = getP s q := by
  simp [getP, updPerson, alookup_map_upd, h]

theorem getP_updPerson_self (s : GState) (p : Nat) (v : PersonData)
    (f : PersonData → PersonData) (h : alookup p s.persons = some v) :
    getP (updPerson s p f) p = f v := by
  simp [getP, updPerson, alookup_map_upd, h]

theorem getP_updPerson_absent (s : GState) (p : Nat) (f : PersonData → PersonData)
    (h : alookup p s.persons = none) : getP (updPerson s p f) p = personDefault := by
  simp [getP, updPerson, alookup_map_upd, h]

theorem getPr_updPerson (s : GState) (p : Nat) (f : PersonData → PersonData) (i : Nat) :
    getPr (updPerson s p f) i = getPr s i := rfl

theorem getPr_updPartnership (s : GState) (i j : Nat) (f : PartnershipData → PartnershipData) :
    getPr (updPartnership s i f) j =
      if j = i then (getPr s j).map f else getPr s j := by
  simp [getPr, updPartnership, alookup_map_upd]

theorem getP_updPartnership (s : GState) (i : Nat) (f : PartnershipData → PartnershipData)
    (p : Nat) : getP (updPartnership s i f) p = getP s p := rfl

/-! ### C10: self-partnering is rejected -/

/-- C10. For every person `p`, of any gender, that is not already recorded
as its own partner, `p.addPartner(p)` returns no Partnership and leaves the
whole state (in particular `p`'s partnership list) unchanged: the DFS
distance from `p` to itself is 0, which is even, so `canPartnerWith` is
false and the source falls through with no mutation and no return value. -/
theorem c10_self_partner_rejected (fuel : Nat) (s : GState) (p : Nat)
    (h : p ∉ getPartners s p) :
    addPartnerF (fuel + 1) s p p = some (s, none) := by
  have hsteps : getStepsToNodeF (fuel + 1) s p p [] = some (some 0, [p]) := by
    simp [getStepsToNodeF]
  simp [addPartnerF, canPartnerWithF, hsteps, h]

/-- An empty graph with one registered person id. -/
def gC10 : GState := ⟨[(0, personDefault)], [], [0], 1⟩

theorem c10_witness :
    0 ∉ getPartners gC10 0 ∧ addPartnerF 1 gC10 0 0 = some (gC10, none) :=
  ⟨by decide, c10_self_partner_rejected 0 gC10 0 (by decide)⟩

/-! ### C7: addChild is a silent no-op on a duplicate or parented child -/

/-- C7. For every Partnership `i` and node `c` that is already a recorded
child of `i` or already has a non-null `parentPartnership`, `addChild(c)`
raises no error, returns `c`, and leaves the state untouched (the guard on
line 145 of the Partnership source short-circuits before any mutation). -/
theorem c7_addChild_noop (fuel : Nat) (s : GState) (i c : Nat) :
    (hasChild s i c → addChildF fuel s i c = .ok (s, c)) ∧
    (∀ cd, alookup c s.persons = some cd → cd.parentPartnership ≠ none →
      addChildF fuel s i c = .ok (s, c)) := by
  constructor
  · intro h
    simp [addChildF, h]
  · intro cd hcd hpar
    by_cases h : hasChild s i c
    · simp [addChildF, h]
    · simp [addChildF, h, hcd, hpar]

/-- A partnership (id 1) between persons 0 and 4 whose recorded child is 2;
person 3 has a (dangling, irrelevant) parent partnership 9. -/
def gC7 : GState :=
  ⟨[(0, personDefault), (4, personDefault),
    (2, ⟨.U, [], some 1, .pn, true, 0, 0⟩),
    (3, ⟨.U, [], some 9, .pn, false, 0, 0⟩)],
   [(1, ⟨0, 4, [2], [], 0, 0⟩)], [0, 1, 2, 3, 4], 11⟩

theorem c7_witness :
    addChildF 1 gC7 1 2 = .ok (gC7, 2) ∧ addChildF 1 gC7 1 3 = .ok (gC7, 3) :=
  ⟨(c7_addChild_noop 1 gC7 1 2).1 (by decide),
   (c7_addChild_noop 1 gC7 1 3).2 ⟨.U, [], some 9, .pn, false, 0, 0⟩ (by decide) (by decide)⟩

/-! ### C9: generateColor reuses assigned colors and avoids white/used ones -/

theorem generateColorLoop_ok (f : Nat) (used : List String) (rnd : Nat → String) :
    ∀ k c, generateColorLoop f used rnd k = some c → c ≠ "#ffffff" ∧ c ∉ used := by
  induction f with
  | zero => intro k c h; simp [generateColorLoop] at h
  | succ f ih =>
    intro k c h
    by_cases hc : rnd k = "#ffffff" ∨ rnd k ∈ used
    · rw [generateColorLoop, if_pos hc] at h
      exact ih (k + 1) c h
    · rw [generateColorLoop, if_neg hc] at h
      push_neg at hc
      cases h
      exact hc

theorem usedFoldEmpty (used : List String) :
    ∀ l : List String, (∀ p ∈ l, p ∈ used) →
      used.foldl (fun acc c => acc.filter (fun x => decide (x ≠ c))) l = [] := by
  induction used with
  | nil =>
    intro l h
    cases l with
    | nil => rfl
    | cons a t => exact absurd (h a (by simp)) (by simp)
  | cons c cs ih =>
    intro l h
    show cs.foldl _ (l.filter fun x => decide (x ≠ c)) = []
    refine ih _ ?_
    intro x hx
    rw [List.mem_filter] at hx
    have hx1 := h x hx.1
    have hx2 : x ≠ c := by simpa using hx.2
    simp at hx1
    rcases hx1 with h1 | h1
    · exact absurd h1 hx2
    · exact h1

/-- C9. `generateColor`: (a) when the disorder id already has a color in
the external legend registry, that color is returned unchanged; (b) when
all four preference colors are in use and the id is unregistered, any color
the retry loop returns is neither exact white nor any color currently in
use. -/
theorem c9_generateColor (legend : List (Nat × String)) (did : Nat)
    (rnd : Nat → String) (fuel : Nat) :
    (∀ c, alookup did legend = some c → generateColor legend did rnd fuel = some c) ∧
    ((∀ p ∈ prefColorsList, p ∈ legend.map Prod.snd) → alookup did legend = none →
      ∀ c, generateColor legend did rnd fuel = some c →
        c ≠ "#ffffff" ∧ c ∉ legend.map Prod.snd) := by
  constructor
  · intro c hc
    simp [generateColor, hc]
  · intro hall hnone c hc
    have hfe := usedFoldEmpty (legend.map Prod.snd) prefColorsList hall
    simp only [generateColor, hnone, hfe] at hc
    exact generateColorLoop_ok fuel _ rnd 0 c hc

/-! ### C4: canPartnerWith -/

/-- Gender compatibility as tested on line 357 of the person source:
opposite genders, or at least one Unknown. -/
def GenderCompatible (s : GState) (p q : Nat) : Prop :=
  getOppositeGender (getP s p).gender = (getP s q).gender ∨
    (getP s p).gender = .U ∨ (getP s q).gender = .U

/-- The `oddStepsAway` condition of line 359: whatever step count the DFS
`getStepsToNode` reports is `null` (unreachable) or odd. -/
def StepsNullOrOdd (fuel : Nat) (s : GState) (p q : Nat) : Prop :=
  ∀ ns vis, getStepsToNodeF fuel s p q [] = some (ns, vis) →
    ns = none ∨ ∃ k, ns = some k ∧ k % 2 = 1

/-- C4. Whenever `canPartnerWith` returns (fuel suffices for the DFS), it
returns true iff the genders are compatible (opposite, or at least one
Unknown) and the reported partner-hop count is unreachable or odd; in
particular it rejects every pair whose two genders are equal and definite,
and every pair whose reported hop count is even. -/
theorem getOppositeGender_ne_self (g : Gender) (h : g ≠ .U) :
    getOppositeGender g ≠ g := by
  cases g <;> simp [getOppositeGender] at h ⊢

theorem c4_canPartnerWith (fuel : Nat) (s : GState) (p q : Nat) (r : Bool)
    (h : canPartnerWithF fuel s p q = some r) :
    (r = true ↔ GenderCompatible s p q ∧ StepsNullOrOdd fuel s p q) ∧
    ((getP s p).gender ≠ .U → (getP s q).gender = (getP s p).gender → r = false) ∧
    (∀ k vis, getStepsToNodeF fuel s p q [] = some (some k, vis) → k % 2 = 0 → r = false) := by
  cases hst : getStepsToNodeF fuel s p q [] with
  | none =>
    simp only [canPartnerWithF, hst] at h
    exact Option.noConfusion h
  | some pr =>
    obtain ⟨ns, vis⟩ := pr
    simp only [canPartnerWithF, hst, Option.some.injEq] at h
    refine ⟨?_, ?_, ?_⟩
    · constructor
      · intro hr
        rw [hr] at h
        rw [Bool.and_eq_true] at h
        constructor
        · have hgc := of_decide_eq_true h.1
          exact hgc
        · intro ns' vis' hst'
          rw [hst] at hst'
          injection hst' with hpair
          injection hpair with h1 h2
          subst h1
          cases ns with
          | none => exact Or.inl rfl
          | some k =>
            right
            exact ⟨k, rfl, of_decide_eq_true h.2⟩
      · rintro ⟨hgc, hsteps⟩
        rw [← h]
        have hgc' : getOppositeGender (getP s p).gender = (getP s q).gender ∨
            (getP s p).gender = .U ∨ (getP s q).gender = .U := hgc
        rw [decide_eq_true hgc']
        rcases hsteps ns vis hst with h2 | ⟨k, hk, h2⟩
        · subst h2
          rfl
        · subst hk
          simp [h2]
    · intro hne heq
      rw [← h]
      have h1 : decide (getOppositeGender (getP s p).gender = (getP s q).gender ∨
          (getP s p).gender = .U ∨ (getP s q).gender = .U) = false := by
        rw [decide_eq_false_iff_not]
        rintro (h2 | h2 | h2)
        · rw [heq] at h2
          exact getOppositeGender_ne_self _ hne h2
        · exact hne h2
        · rw [heq] at h2
          exact hne h2
      rw [h1]
      rfl
    · intro k vis' hst' hk
      injection hst' with hpair
      injection hpair with h1 h2
      subst h1
      rw [← h]
      have hdec : decide (k % 2 = 1) = false := by
        rw [decide_eq_false_iff_not]
        omega
      simp [hdec]

/-- Two unpartnered persons of opposite definite genders. -/
def gC4 : GState :=
  ⟨[(0, ⟨.M, [], none, .pn, false, 0, 0⟩), (1, ⟨.F, [], none, .pn, false, 0, 0⟩)],
   [], [0, 1], 2⟩

theorem c4_witness :
    (true = true ↔ GenderCompatible gC4 0 1 ∧ StepsNullOrOdd 2 gC4 0 1) ∧
    ((getP gC4 0).gender ≠ .U → (getP gC4 1).gender = (getP gC4 0).gender → true = false) ∧
    (∀ k vis, getStepsToNodeF 2 gC4 0 1 [] = some (some k, vis) → k % 2 = 0 → true = false) :=
  c4_canPartnerWith 2 gC4 0 1 true (by decide)

/-- A legend in which four disorders use up the whole preference palette. -/
def legendC9 : List (Nat × String) :=
  [(1, "#FEE090"), (2, "#E0F3F8"), (3, "#91BFDB"), (4, "#4575B4")]

/-- A random stream that first draws white, then an unused color. -/
def rndC9 : Nat → String := fun k => if k = 0 then "#ffffff" else "#123456"

theorem c9_witness :
    generateColor legendC9 1 rndC9 5 = some "#FEE090" ∧
    "#123456" ≠ "#ffffff" ∧ "#123456" ∉ legendC9.map Prod.snd :=
  ⟨(c9_generateColor legendC9 1 rndC9 5).1 "#FEE090" (by decide),
   (c9_generateColor legendC9 5 rndC9 5).2 (by decide) (by decide) "#123456" (by decide)⟩

/-! ### C2: isRelatedTo crashes instead of computing symmetric reachability -/

/-- Person 0 (male) is partnered with person 2 via partnership 3; person 1
is isolated; nobody has a parent partnership. -/
def gC2 : GState :=
  ⟨[(0, ⟨.M, [3], none, .pn, false, 0, 0⟩),
    (1, ⟨.F, [], none, .pn, false, 0, 0⟩),
    (2, ⟨.F, [3], none, .pn, false, 0, 0⟩)],
   [(3, ⟨0, 2, [], [], 0, 0⟩)], [0, 1, 2, 3], 4⟩

/-- C2 (code bug).  `isRelatedTo` is claimed to return normally with a
symmetric boolean, computing a breadth-first search.  On the concrete state
`gC2`, `0.isRelatedTo(1)` throws a `TypeError` — the inner loop's condition
`i < neighbors.length` uses the outer index, so the scan walks past the end
of the (non-empty, target-free) neighbor array and calls `.getID()` on
`undefined` — while `1.isRelatedTo(0)` returns false (person 1 has no
neighbors, and the `front = next; next.clear()` aliasing empties the
frontier).  The two calls neither both return normally nor agree. -/
theorem c2_isRelatedTo_crash :
    isRelatedTo gC2 0 1 = .error () ∧ isRelatedTo gC2 1 0 = .ok false :=
  ⟨rfl, rfl⟩

/-! ### C1: a Partnership with exactly one placeholder partner IS constructed -/

/-- Person 0 is a real male person, person 1 a placeholder. -/
def gC1 : GState :=
  ⟨[(0, ⟨.M, [], none, .pn, false, 0, 0⟩), (1, ⟨.U, [], none, .ph, false, 0, 0⟩)],
   [], [0, 1], 4⟩

/-- C1 (counterexample).  The claim says construction is a no-op unless
BOTH supplied partners are non-placeholder.  But the initializer guard
(partnership source, line 14) is a disjunction: constructing a Partnership
between real person 0 and placeholder 1 stores the partner pair, registers
with both partners, and assigns id 4 and the supplied position — so a
reachable state does contain a Partnership with a placeholder partner. -/
theorem c1_counterexample :
    (getP gC1 1).kind = .ph ∧
    (partnershipNew gC1 7 9 0 1).1 ≠ gC1 ∧
    getPr (partnershipNew gC1 7 9 0 1).1 4 = some ⟨0, 1, [], [], 7, 9⟩ ∧
    (partnershipNew gC1 7 9 0 1).2 = 4 ∧
    (getP (partnershipNew gC1 7 9 0 1).1 0).partnerships = [4] ∧
    (getP (partnershipNew gC1 7 9 0 1).1 1).partnerships = [4] := by decide

theorem filterMap_congr_own {α β : Type} (l : List α) (f g : α → Option β)
    (h : ∀ a ∈ l, f a = g a) : l.filterMap f = l.filterMap g := by
  induction l with
  | nil => rfl
  | cons a t ih =>
    rw [List.filterMap_cons, List.filterMap_cons, h a (by simp),
      ih (fun a' ha' => h a' (by simp [ha']))]

theorem getPr_append_old (s : GState) (k : Nat) (d : PartnershipData) (j : Nat)
    (hj : j ≠ k) : alookup j (s.partnerships ++ [(k, d)]) = alookup j s.partnerships := by
  rw [alookup_append]
  cases h : alookup j s.partnerships with
  | some v => rfl
  | none => simp [alookup, Ne.symm hj]

theorem getPr_append_new (s : GState) (k : Nat) (d : PartnershipData)
    (hk : alookup k s.partnerships = none) :
    alookup k (s.partnerships ++ [(k, d)]) = some d := by
  rw [alookup_append, hk]
  simp [alookup]

/-- C1 (amended).  Constructing a Partnership is a no-op precisely when
BOTH supplied partners are placeholders (and even then JavaScript `new`
yields an uninitialized object, modelled by the bumped allocation counter);
when at least one partner is non-placeholder — including one-placeholder
pairs — the partner pair is stored, the partnership registers itself with
both partners, and id and position are assigned. -/
theorem c1_amended (s : GState) (x y : Rat) (p1 p2 : Nat) (pd1 pd2 : PersonData)
    (hne : p1 ≠ p2)
    (hp1 : alookup p1 s.persons = some pd1)
    (hp2 : alookup p2 s.persons = some pd2)
    (hfr : ∀ e ∈ s.partnerships, e.1 < s.nextId)
    (hfp1 : ∀ j ∈ pd1.partnerships, j < s.nextId)
    (hfp2 : ∀ j ∈ pd2.partnerships, j < s.nextId)
    (hnp1 : p2 ∉ getPartners s p1)
    (hnp2 : p1 ∉ getPartners s p2) :
    ((getP s p1).kind = .ph ∧ (getP s p2).kind = .ph →
      partnershipNew s x y p1 p2 = ({ s with nextId := s.nextId + 1 }, s.nextId)) ∧
    ((getP s p1).kind ≠ .ph ∨ (getP s p2).kind ≠ .ph →
      (partnershipNew s x y p1 p2).2 = s.nextId ∧
      getPr s s.nextId = none ∧
      getPr (partnershipNew s x y p1 p2).1 s.nextId = some ⟨p1, p2, [], [], x, y⟩ ∧
      s.nextId ∈ (getP (partnershipNew s x y p1 p2).1 p1).partnerships ∧
      s.nextId ∈ (getP (partnershipNew s x y p1 p2).1 p2).partnerships) := by
  have hfresh_none : alookup s.nextId s.partnerships = none :=
    alookup_none_of_lt _ _ hfr
  constructor
  · rintro ⟨ha, hb⟩
    have hg : ¬((getP s p1).kind ≠ .ph ∨ (getP s p2).kind ≠ .ph) := by
      rintro (h | h)
      · exact h ha
      · exact h hb
    simp only [partnershipNew]
    rw [if_neg hg]
  · intro hg
    have hstep : partnershipNew s x y p1 p2 =
        (addPartnershipP (addPartnershipP
          { s with partnerships := s.partnerships ++ [(s.nextId, ⟨p1, p2, [], [], x, y⟩)],
                   nextId := s.nextId + 1 } p1 s.nextId) p2 s.nextId, s.nextId) := by
      simp only [partnershipNew]
      rw [if_pos hg]
    set d : PartnershipData := ⟨p1, p2, [], [], x, y⟩ with hdd
    set S1 : GState :=
      { s with partnerships := s.partnerships ++ [(s.nextId, d)], nextId := s.nextId + 1 }
      with hS1
    have hPr1 : getPr S1 s.nextId = some d := by
      show alookup s.nextId (s.partnerships ++ [(s.nextId, d)]) = some d
      exact getPr_append_new s s.nextId d hfresh_none
    have hPrj : ∀ j, j < s.nextId → getPr S1 j = getPr s j := by
      intro j hj
      show alookup j (s.partnerships ++ [(s.nextId, d)]) = alookup j s.partnerships
      exact getPr_append_old s s.nextId d j (Nat.ne_of_lt hj)
    have hpoj : ∀ j, j < s.nextId → ∀ p, getPartnerOf S1 j p = getPartnerOf s j p := by
      intro j hj p
      simp only [getPartnerOf, hPrj j hj]
    have hpo1 : getPartnerOf S1 s.nextId p1 = some p2 := by
      simp only [getPartnerOf, hPr1, hdd]
      simp
    have hgp1 : getP S1 p1 = getP s p1 := rfl
    have hppd1 : (getP s p1).partnerships = pd1.partnerships := by
      simp [getP, hp1]
    have hpartners1 : getPartners S1 p1 = getPartners s p1 := by
      simp only [getPartners, hgp1]
      apply filterMap_congr_own
      intro j hjmem
      have hj : j < s.nextId := hfp1 j (by rw [hppd1] at hjmem; exact hjmem)
      exact hpoj j hj p1
    have haddp1 : addPartnershipP S1 p1 s.nextId =
        updPerson S1 p1 (fun pd => { pd with partnerships := pd.partnerships ++ [s.nextId] }) := by
      simp only [addPartnershipP, hpo1, hpartners1]
      rw [decide_eq_false hnp1]
      simp
    set S2 : GState :=
      updPerson S1 p1 (fun pd => { pd with partnerships := pd.partnerships ++ [s.nextId] })
      with hS2
    have hPr2 : getPr S2 s.nextId = some d := hPr1
    have hpo2 : getPartnerOf S2 s.nextId p2 = some p1 := by
      simp only [getPartnerOf, hPr2, hdd]
      rw [if_neg (fun hc : p2 = p1 => hne hc.symm)]
      simp
    have hgp2 : getP S2 p2 = getP s p2 := by
      rw [hS2, getP_updPerson_ne _ _ _ _ (fun hc : p2 = p1 => hne hc.symm)]
      rfl
    have hppd2 : (getP s p2).partnerships = pd2.partnerships := by
      simp [getP, hp2]
    have hpoj2 : ∀ j, j < s.nextId → getPartnerOf S2 j p2 = getPartnerOf s j p2 := by
      intro j hj
      have : getPartnerOf S2 j p2 = getPartnerOf S1 j p2 := rfl
      rw [this, hpoj j hj p2]
    have hpartners2 : getPartners S2 p2 = getPartners s p2 := by
      simp only [getPartners, hgp2]
      apply filterMap_congr_own
      intro j hjmem
      have hj : j < s.nextId := hfp2 j (by rw [hppd2] at hjmem; exact hjmem)
      exact hpoj2 j hj
    have haddp2 : addPartnershipP S2 p2 s.nextId =
        updPerson S2 p2 (fun pd => { pd with partnerships := pd.partnerships ++ [s.nextId] }) := by
      simp only [addPartnershipP, hpo2, hpartners2]
      rw [decide_eq_false hnp2]
      simp
    rw [hstep, haddp1, haddp2]
    refine ⟨rfl, hfresh_none, ?_, ?_, ?_⟩
    · exact hPr2
    · show s.nextId ∈ (getP (updPerson S2 p2
        (fun pd => { pd with partnerships := pd.partnerships ++ [s.nextId] })) p1).partnerships
      have h1 : alookup p1 S2.persons =
          some { pd1 with partnerships := pd1.partnerships ++ [s.nextId] } := by
        have hm := alookup_map_upd S1.persons p1 p1
          (fun pd => { pd with partnerships := pd.partnerships ++ [s.nextId] })
        show alookup p1 (S1.persons.map _) = _
        rw [hm]
        have h0 : alookup p1 S1.persons = some pd1 := hp1
        simp [h0]
      rw [getP_updPerson_ne _ _ _ _ hne]
      have h3 : getP S2 p1 = { pd1 with partnerships := pd1.partnerships ++ [s.nextId] } := by
        simp [getP, h1]
      rw [h3]
      simp
    · show s.nextId ∈ (getP (updPerson S2 p2
        (fun pd => { pd with partnerships := pd.partnerships ++ [s.nextId] })) p2).partnerships
      have h1 : alookup p2 S2.persons = some pd2 := by
        have hm := alookup_map_upd S1.persons p1 p2
          (fun pd => { pd with partnerships := pd.partnerships ++ [s.nextId] })
        show alookup p2 (S1.persons.map _) = _
        rw [hm]
        have h0 : alookup p2 S1.persons = some pd2 := hp2
        simp [h0, hne.symm]
      rw [getP_updPerson_self S2 p2 pd2 _ h1]
      simp

theorem c1_witness :
    ((getP gC1 0).kind = .ph ∧ (getP gC1 1).kind = .ph →
      partnershipNew gC1 7 9 0 1 = ({ gC1 with nextId := gC1.nextId + 1 }, gC1.nextId)) ∧
    ((getP gC1 0).kind ≠ .ph ∨ (getP gC1 1).kind ≠ .ph →
      (partnershipNew gC1 7 9 0 1).2 = gC1.nextId ∧
      getPr gC1 gC1.nextId = none ∧
      getPr (partnershipNew gC1 7 9 0 1).1 gC1.nextId = some ⟨0, 1, [], [], 7, 9⟩ ∧
      gC1.nextId ∈ (getP (partnershipNew gC1 7 9 0 1).1 0).partnerships ∧
      gC1.nextId ∈ (getP (partnershipNew gC1 7 9 0 1).1 1).partnerships) :=
  c1_amended gC1 7 9 0 1 ⟨.M, [], none, .pn, false, 0, 0⟩ ⟨.U, [], none, .ph, false, 0, 0⟩
    (by decide) (by decide) (by decide) (by decide) (by decide) (by decide)
    (by decide) (by decide)

/-! ### C6: addPartner idempotence -/

/-- Two unrelated placeholder nodes: the constructor guard skips
initialization for a placeholder-placeholder pair, but `new` still yields a
fresh object each call. -/
def gC6 : GState :=
  ⟨[(0, ⟨.U, [], none, .ph, false, 0, 0⟩), (1, ⟨.U, [], none, .ph, false, 0, 0⟩)],
   [], [0, 1], 5⟩

/-- State after the first (uninitialized) allocation. -/
def gC6b : GState := { gC6 with nextId := 6 }

/-- State after the second (uninitialized) allocation. -/
def gC6c : GState := { gC6 with nextId := 7 }

/-- C6 (counterexample).  When both nodes are placeholders,
`canPartnerWith` holds (both genders Unknown, unreachable in the partner
graph), but `new Partnership` skips its guarded initializer; each
`addPartner` call returns a distinct never-initialized Partnership object
(identities 5 and then 6), so the second call does NOT return the
Partnership instance returned by the first. -/
theorem c6_counterexample :
    addPartnerF 3 gC6 0 1 = some (gC6b, some 5) ∧
    addPartnerF 3 gC6b 0 1 = some (gC6c, some 6) ∧ (5 : Nat) ≠ 6 := by
  refine ⟨by decide, by decide, by decide⟩

/-- Two states agree on everything `getPartners`/`getPartnership` read:
the partnership store and every person's partnership list. -/
def PartnershipsShape (s t : GState) : Prop :=
  t.partnerships = s.partnerships ∧
  ∀ p, (getP t p).partnerships = (getP s p).partnerships

theorem partnershipsShape_refl (s : GState) : PartnershipsShape s s :=
  ⟨rfl, fun _ => rfl⟩

theorem partnershipsShape_trans {s t u : GState}
    (h1 : PartnershipsShape s t) (h2 : PartnershipsShape t u) : PartnershipsShape s u :=
  ⟨h2.1.trans h1.1, fun p => (h2.2 p).trans (h1.2 p)⟩

theorem updPerson_shape (s : GState) (q : Nat) (f : PersonData → PersonData)
    (hf : ∀ pd, (f pd).partnerships = pd.partnerships) :
    PartnershipsShape s (updPerson s q f) := by
  refine ⟨rfl, fun p => ?_⟩
  by_cases hpq : p = q
  · subst hpq
    cases hl : alookup p s.persons with
    | none => rw [getP_updPerson_absent s p f hl]; simp [getP, hl]
    | some v => rw [getP_updPerson_self s p v f hl, hf]; simp [getP, hl]
  · rw [getP_updPerson_ne s q p f hpq]

theorem setGenderOnly_shape (s : GState) (me : Nat) (g : Gender) :
    PartnershipsShape s (setGenderOnly s me g) :=
  updPerson_shape s me _ (fun _ => rfl)

theorem setGenderLoop_shape
    (rec : GState → Nat → Gender → List Nat → Option (GState × List Nat)) (me : Nat)
    (hrec : ∀ s q g v r, rec s q g v = some r → PartnershipsShape s r.1) :
    ∀ (l : List Nat) (s : GState) (v : List Nat) (r : GState × List Nat),
      setGenderLoop rec me s l v = some r → PartnershipsShape s r.1 := by
  intro l
  induction l with
  | nil =>
    intro s v r h
    simp only [setGenderLoop] at h
    cases h
    exact partnershipsShape_refl s
  | cons q rest ih =>
    intro s v r h
    simp only [setGenderLoop] at h
    by_cases hq : q ∈ v
    · rw [if_pos hq] at h
      exact ih s v r h
    · rw [if_neg hq] at h
      cases hrc : rec s q (getOppositeGender (getP s me).gender) v with
      | none => rw [hrc] at h; exact Option.noConfusion h
      | some r1 =>
        rw [hrc] at h
        obtain ⟨s1, v1⟩ := r1
        exact partnershipsShape_trans (hrec s q _ v (s1, v1) hrc) (ih s1 v1 r h)

theorem setGenderF_shape :
    ∀ (fuel : Nat) (s : GState) (me : Nat) (g : Gender) (fd : Bool) (vin : List Nat)
      (r : GState × List Nat),
      setGenderF fuel s me g fd vin = some r → PartnershipsShape s r.1 := by
  intro fuel
  induction fuel with
  | zero => intro s me g fd vin r h; exact Option.noConfusion h
  | succ fuel ih =>
    intro s me g fd vin r h
    simp only [setGenderF] at h
    by_cases h1 : (getPartners s me).length = 0
    · rw [if_pos h1] at h
      cases h
      exact setGenderOnly_shape s me (parseGender g)
    · rw [if_neg h1] at h
      by_cases h2 : (getP s me).gender = .U
      · rw [if_pos h2] at h
        refine partnershipsShape_trans (setGenderOnly_shape s me (parseGender g)) ?_
        exact setGenderLoop_shape _ me (fun s' q' g' v' r' h' => ih s' q' g' fd v' r' h')
          _ _ _ r h
      · rw [if_neg h2] at h
        cases h
        exact partnershipsShape_refl s

theorem genderInfer_shape (fuel : Nat) (s1 : GState) (p q : Nat) (r : GState × List Nat)
    (h : genderInfer fuel s1 p q = some r) : PartnershipsShape s1 r.1 := by
  simp only [genderInfer] at h
  by_cases h1 : (getP s1 p).gender = .U ∧ (getP s1 q).gender ≠ .U
  · rw [if_pos h1] at h
    exact setGenderF_shape fuel s1 p _ true [] r h
  · rw [if_neg h1] at h
    by_cases h2 : (getP s1 p).gender ≠ .U ∧ (getP s1 q).gender = .U
    · rw [if_pos h2] at h
      exact setGenderF_shape fuel s1 q _ true [] r h
    · rw [if_neg h2] at h
      cases h
      exact partnershipsShape_refl s1

theorem find?_congr_own {α : Type} (l : List α) (f g : α → Bool)
    (h : ∀ a ∈ l, f a = g a) : l.find? f = l.find? g := by
  induction l with
  | nil => rfl
  | cons a t ih =>
    rw [List.find?_cons, List.find?_cons, h a (by simp),
      ih (fun a' ha' => h a' (by simp [ha']))]

theorem shape_getPartners {s t : GState} (h : PartnershipsShape s t) (p : Nat) :
    getPartners t p = getPartners s p := by
  unfold getPartners
  rw [h.2 p]
  apply filterMap_congr_own
  intro j hj
  unfold getPartnerOf getPr
  rw [h.1]

theorem shape_getPartnership {s t : GState} (h : PartnershipsShape s t) (p q : Nat) :
    getPartnership t p q = getPartnership s p q := by
  unfold getPartnership
  rw [h.2 p]
  apply find?_congr_own
  intro j hj
  unfold getPartnerOf getPr
  rw [h.1]

theorem addPartnershipP_partnerships (s : GState) (p i : Nat) :
    (addPartnershipP s p i).partnerships = s.partnerships := by
  simp only [addPartnershipP]
  split
  · rfl
  · rfl

theorem addPartnershipP_getP_ne (s : GState) (p i r : Nat) (h : r ≠ p) :
    getP (addPartnershipP s p i) r = getP s r := by
  simp only [addPartnershipP]
  split
  · rfl
  · exact getP_updPerson_ne s p r _ h

theorem getPartnerOf_store_eq {s t : GState} (h : t.partnerships = s.partnerships)
    (j r : Nat) : getPartnerOf t j r = getPartnerOf s j r := by
  unfold getPartnerOf getPr
  rw [h]

theorem find?_append_left_none {α : Type} (l1 l2 : List α) (pred : α → Bool)
    (h : ∀ a ∈ l1, pred a = false) : (l1 ++ l2).find? pred = l2.find? pred := by
  induction l1 with
  | nil => rfl
  | cons a t ih =>
    rw [List.cons_append, List.find?_cons, h a (by simp),
      ih (fun a' ha' => h a' (by simp [ha']))]

/-- When at least one partner is non-placeholder and `p` is not yet
partnered with `q`, constructing a Partnership leaves `p` partnered with
`q`, and `p.getPartnership(q)` finds exactly the new object. -/
theorem partnershipNew_reg (s : GState) (x y : Rat) (p q : Nat) (pd : PersonData)
    (hg : (getP s p).kind ≠ .ph ∨ (getP s q).kind ≠ .ph)
    (hp : alookup p s.persons = some pd)
    (hfr : ∀ e ∈ s.partnerships, e.1 < s.nextId)
    (hfp : ∀ j ∈ pd.partnerships, j < s.nextId)
    (hnp : q ∉ getPartners s p)
    (hne : p ≠ q) :
    (partnershipNew s x y p q).2 = s.nextId ∧
    q ∈ getPartners (partnershipNew s x y p q).1 p ∧
    getPartnership (partnershipNew s x y p q).1 p q = some s.nextId := by
  have hfresh_none : alookup s.nextId s.partnerships = none :=
    alookup_none_of_lt _ _ hfr
  have hstep : partnershipNew s x y p q =
      (addPartnershipP (addPartnershipP
        { s with partnerships := s.partnerships ++ [(s.nextId, ⟨p, q, [], [], x, y⟩)],
                 nextId := s.nextId + 1 } p s.nextId) q s.nextId, s.nextId) := by
    simp only [partnershipNew]
    rw [if_pos hg]
  set d : PartnershipData := ⟨p, q, [], [], x, y⟩ with hdd
  set S1 : GState :=
    { s with partnerships := s.partnerships ++ [(s.nextId, d)], nextId := s.nextId + 1 }
    with hS1
  have hPr1 : getPr S1 s.nextId = some d := by
    show alookup s.nextId (s.partnerships ++ [(s.nextId, d)]) = some d
    exact getPr_append_new s s.nextId d hfresh_none
  have hPrj : ∀ j, j < s.nextId → getPr S1 j = getPr s j := by
    intro j hj
    show alookup j (s.partnerships ++ [(s.nextId, d)]) = alookup j s.partnerships
    exact getPr_append_old s s.nextId d j (Nat.ne_of_lt hj)
  have hpoj : ∀ j, j < s.nextId → ∀ r, getPartnerOf S1 j r = getPartnerOf s j r := by
    intro j hj r
    simp only [getPartnerOf, hPrj j hj]
  have hpo1 : getPartnerOf S1 s.nextId p = some q := by
    simp only [getPartnerOf, hPr1, hdd]
    simp
  have hppd : (getP s p).partnerships = pd.partnerships := by
    simp [getP, hp]
  have hpartners1 : getPartners S1 p = getPartners s p := by
    have : getP S1 p = getP s p := rfl
    simp only [getPartners, this]
    apply filterMap_congr_own
    intro j hjmem
    exact hpoj j (hfp j (by rw [hppd] at hjmem; exact hjmem)) p
  have haddp1 : addPartnershipP S1 p s.nextId =
      updPerson S1 p (fun pd' => { pd' with partnerships := pd'.partnerships ++ [s.nextId] }) := by
    simp only [addPartnershipP, hpo1, hpartners1]
    rw [decide_eq_false hnp]
    simp
  set S2 : GState :=
    updPerson S1 p (fun pd' => { pd' with partnerships := pd'.partnerships ++ [s.nextId] })
    with hS2
  have hS2p : getP S2 p = { pd with partnerships := pd.partnerships ++ [s.nextId] } := by
    rw [hS2]
    exact getP_updPerson_self S1 p pd _ hp
  set S3 : GState := addPartnershipP S2 q s.nextId with hS3
  have hS3store : S3.partnerships = S1.partnerships := by
    rw [hS3, addPartnershipP_partnerships]
    exact rfl
  have hS3p : getP S3 p = getP S2 p := by
    rw [hS3]
    exact addPartnershipP_getP_ne S2 q s.nextId p hne
  have hpoS3 : ∀ j r, getPartnerOf S3 j r = getPartnerOf S1 j r :=
    fun j r => getPartnerOf_store_eq hS3store j r
  have hlist : (getP S3 p).partnerships = pd.partnerships ++ [s.nextId] := by
    rw [hS3p, hS2p]
  rw [hstep, haddp1]
  refine ⟨rfl, ?_, ?_⟩
  · show q ∈ getPartners S3 p
    unfold getPartners
    rw [hlist, List.filterMap_append]
    apply List.mem_append_right
    have : getPartnerOf S3 s.nextId p = some q := by rw [hpoS3, hpo1]
    simp [this]
  · show getPartnership S3 p q = some s.nextId
    unfold getPartnership
    rw [hlist]
    have hold : ∀ j ∈ pd.partnerships,
        (getPartnerOf S3 j p == some q) = false := by
      intro j hj
      rw [hpoS3, hpoj j (hfp j hj) p]
      have hne' : getPartnerOf s j p ≠ some q := by
        intro hc
        apply hnp
        unfold getPartners
        rw [hppd]
        exact List.mem_filterMap.2 ⟨j, hj, hc⟩
      exact beq_eq_false_iff_ne.2 hne'
    rw [find?_append_left_none _ _ _ hold]
    have : getPartnerOf S3 s.nextId p = some q := by rw [hpoS3, hpo1]
    simp [List.find?_cons, this]

/-- C6 (amended).  `addPartner` is idempotent provided at least one of the
two nodes is not a placeholder: whenever `p.addPartner(q)` returns a
Partnership `i`, an immediate second call returns the very same instance
`i` with no state change (so no new Partnership is created).  (Without the
placeholder proviso the guarded constructor never initializes and each call
returns a fresh uninitialized object, see the counterexample.) -/
theorem c6_addPartner_idempotent (fuel : Nat) (s : GState) (p q : Nat) (pd : PersonData)
    (s' : GState) (i : Nat)
    (hph : (getP s p).kind ≠ .ph ∨ (getP s q).kind ≠ .ph)
    (hp : alookup p s.persons = some pd)
    (hfr : ∀ e ∈ s.partnerships, e.1 < s.nextId)
    (hfp : ∀ j ∈ pd.partnerships, j < s.nextId)
    (h : addPartnerF fuel s p q = some (s', some i)) :
    addPartnerF fuel s' p q = some (s', some i) := by
  by_cases hmem : q ∈ getPartners s p
  · simp only [addPartnerF] at h
    rw [if_pos hmem] at h
    rw [Option.some.injEq, Prod.mk.injEq] at h
    obtain ⟨hss, hgp⟩ := h
    subst hss
    simp only [addPartnerF]
    rw [if_pos hmem, hgp]
  · simp only [addPartnerF] at h
    rw [if_neg hmem] at h
    cases hcan : canPartnerWithF fuel s p q with
    | none =>
      rw [hcan] at h
      exact Option.noConfusion h
    | some b =>
      rw [hcan] at h
      cases b with
      | false => simp at h
      | true =>
        have hne : p ≠ q := by
          intro he
          subst he
          cases fuel with
          | zero => simp [canPartnerWithF, getStepsToNodeF] at hcan
          | succ f =>
            have hsteps : getStepsToNodeF (f + 1) s p p [] = some (some 0, [p]) := by
              simp [getStepsToNodeF]
            simp [canPartnerWithF, hsteps] at hcan
        cases hgi : genderInfer fuel
            (partnershipNew s (midpointX s p q) (midpointY s p q) p q).1 p q with
        | none =>
          rw [hgi] at h
          exact Option.noConfusion h
        | some rr =>
          obtain ⟨s2, vis⟩ := rr
          rw [hgi] at h
          rw [Option.some.injEq, Prod.mk.injEq] at h
          obtain ⟨hs2, hival⟩ := h
          rw [Option.some.injEq] at hival
          obtain ⟨hid, hqmem, hfind⟩ := partnershipNew_reg s (midpointX s p q)
            (midpointY s p q) p q pd hph hp hfr hfp hmem hne
          have hshape : PartnershipsShape
              (partnershipNew s (midpointX s p q) (midpointY s p q) p q).1 s2 :=
            genderInfer_shape fuel _ p q (s2, vis) hgi
          subst hs2
          have hqmem' : q ∈ getPartners s2 p := by
            rw [shape_getPartners hshape]
            exact hqmem
          have hfind' : getPartnership s2 p q = some s.nextId := by
            rw [shape_getPartnership hshape]
            exact hfind
          simp only [addPartnerF]
          rw [if_pos hqmem', hfind', ← hival, hid]

/-- Two fresh persons of opposite definite genders. -/
def gC6w : GState :=
  ⟨[(0, ⟨.M, [], none, .pn, false, 0, 0⟩), (1, ⟨.F, [], none, .pn, false, 0, 0⟩)],
   [], [0, 1], 2⟩

/-- The state after `0.addPartner(1)` on `gC6w`: partnership 2 created (at
the computed midpoint) and registered with both partners. -/
def gC6w2 : GState :=
  ⟨[(0, ⟨.M, [2], none, .pn, false, 0, 0⟩), (1, ⟨.F, [2], none, .pn, false, 0, 0⟩)],
   [(2, ⟨0, 1, [], [], midpointX gC6w 0 1, midpointY gC6w 0 1⟩)], [0, 1], 3⟩

theorem c6_witness :
    addPartnerF 3 gC6w2 0 1 = some (gC6w2, some 2) :=
  c6_addPartner_idempotent 3 gC6w 0 1 ⟨.M, [], none, .pn, false, 0, 0⟩ gC6w2 2
    (by decide) (by decide) (by decide) (by decide) (by rfl)

/-! ### C3: createChild converts a placeholder only when no real child exists -/

/-- Partnership 10 (partners 0 and 1) has a real child 2 AND a placeholder
child 3. -/
def gC3 : GState :=
  ⟨[(0, personDefault), (1, personDefault),
    (2, ⟨.U, [], some 10, .pn, true, 0, 0⟩),
    (3, ⟨.U, [], some 10, .ph, true, 0, 0⟩)],
   [(10, ⟨0, 1, [2], [3], 0, 0⟩)], [0, 1, 2, 3, 10], 20⟩

/-- C3 (counterexample).  The claim says that whenever at least one
placeholder child exists, `createChild` converts it in place and returns it
instead of creating a second node.  But the branch condition on line 125
tests only `getChildren()[0]` — and the flattened children list puts real
children first — so on `gC3` (placeholder child 3 present, real child 2
present) `createChild` takes the else branch: it creates and returns the
fresh node 20, which did not previously exist, rather than the placeholder
3. -/
theorem c3_counterexample :
    getChildrenPh gC3 10 = [3] ∧ (getP gC3 3).kind = .ph ∧
    (createChildF 9 gC3 10 false 0 0).toOption.map (fun r => r.2) = some 20 ∧
    alookup 20 gC3.persons = none ∧
    (createChildF 9 gC3 10 false 0 0).toOption.map
      (fun r => (alookup 20 r.1.persons).isSome) = some true := by
  refine ⟨by decide, by decide, by decide, by decide, by decide⟩

/-- C3 (amended).  `createChild` converts an existing placeholder child in
place (returning it, creating nothing) exactly when the first element of
the flattened children list is a placeholder — i.e. when the partnership
has no real-person child and at least one placeholder child.  (With a real
child present, a fresh node is created instead, as the counterexample
shows.) -/
theorem c3_createChild_convert (fuel : Nat) (s : GState) (i : Nat) (d : PartnershipData)
    (c : Nat) (cs : List Nat) (b : Bool) (ox oy : Rat)
    (hd : getPr s i = some d) (hpn : d.childrenPn = []) (hph : d.childrenPh = c :: cs)
    (hk : (getP s c).kind = .ph) :
    createChildF fuel s i b ox oy = .ok (convertToPersonS s c) ∧
    (convertToPersonS s c).2 = c := by
  have hkids : getChildrenAll s i = c :: cs := by
    simp [getChildrenAll, hd, hpn, hph]
  constructor
  · simp only [createChildF, hkids]
    rw [if_pos hk]
  · rfl

/-- Partnership 10 with a single placeholder child 3 and no real child. -/
def gC3w : GState :=
  ⟨[(0, personDefault), (1, personDefault),
    (3, ⟨.U, [], some 10, .ph, true, 0, 0⟩)],
   [(10, ⟨0, 1, [], [3], 0, 0⟩)], [0, 1, 3, 10], 20⟩

theorem c3_witness :
    createChildF 5 gC3w 10 false 0 0 = .ok (convertToPersonS gC3w 3) ∧
    (convertToPersonS gC3w 3).2 = 3 :=
  c3_createChild_convert 5 gC3w 10 ⟨0, 1, [], [3], 0, 0⟩ 3 [] false 0 0
    (by decide) rfl rfl (by decide)

/-! ### C8: isDescendantOf terminates on finite acyclic graphs -/

/-- A rank function witnessing that the parent/child relation of `s` is
acyclic: every recorded child has strictly smaller rank than its parent.
On a finite graph this is equivalent to acyclicity of the parent/child
relation.  The quantifier ranges over the (finite) person store, which
covers every node with a nonempty `getChildren()`. -/
def ChildRankOk (s : GState) (rank : Nat → Nat) : Prop :=
  ∀ e ∈ s.persons, ∀ c ∈ personChildren s e.1, rank c < rank e.1

instance (s : GState) (rank : Nat → Nat) : Decidable (ChildRankOk s rank) := by
  unfold ChildRankOk; infer_instance

theorem personChildren_absent (s : GState) (p : Nat)
    (h : alookup p s.persons = none) : personChildren s p = [] := by
  simp [personChildren, getP, h, personDefault]

theorem childRank_lt {s : GState} {rank : Nat → Nat} (h : ChildRankOk s rank) :
    ∀ p c, c ∈ personChildren s p → rank c < rank p := by
  intro p c hc
  cases hl : alookup p s.persons with
  | none => rw [personChildren_absent s p hl] at hc; exact absurd hc (by simp)
  | some d => exact h (p, d) (alookup_mem p d s.persons hl) c hc

theorem descSearch_ne_none (rec : Nat → Option Bool) (l : List Nat)
    (h : ∀ c ∈ l, rec c ≠ none) : descSearch rec l ≠ none := by
  induction l with
  | nil => simp [descSearch]
  | cons c rest ih =>
    simp only [descSearch]
    cases hc : rec c with
    | none => exact absurd hc (h c (by simp))
    | some b =>
      cases b with
      | true => simp
      | false => exact ih (fun c' hc' => h c' (by simp [hc']))

/-- C8.  Under the precondition that the graph is finite (the person store
is a finite list) and the parent/child relation is acyclic (witnessed by a
rank function, which on finite graphs exists iff the relation is acyclic),
`isDescendantOf(other)` — and hence `isAncestorOf` — terminates for every
pair of persons: any recursion-depth budget exceeding the rank of the
descent root suffices, so the recursion never runs forever. -/
theorem c8_isDescendantOf_terminates (s : GState) (rank : Nat → Nat)
    (h : ChildRankOk s rank) :
    ∀ (fuel me other : Nat), rank other < fuel →
      isDescendantOfF fuel s me other ≠ none ∧ isAncestorOfF fuel s other me ≠ none := by
  have main : ∀ (fuel other : Nat), rank other < fuel → ∀ me,
      isDescendantOfF fuel s me other ≠ none := by
    intro fuel
    induction fuel with
    | zero => intro other hlt; omega
    | succ fuel ih =>
      intro other hlt me
      simp only [isDescendantOfF]
      by_cases hmem : me ∈ personChildren s other
      · rw [if_pos hmem]
        simp
      · rw [if_neg hmem]
        apply descSearch_ne_none
        intro c hc
        have hck : rank c < rank other := childRank_lt h other c hc
        exact ih c (by omega) me
  intro fuel me other hlt
  exact ⟨main fuel other hlt me, main fuel other hlt me⟩

/-- Persons 0 and 3 are the partners of partnership 2, whose only child is
person 1. -/
def gC8 : GState :=
  ⟨[(0, ⟨.M, [2], none, .pn, false, 0, 0⟩),
    (3, ⟨.F, [2], none, .pn, false, 0, 0⟩),
    (1, ⟨.U, [], some 2, .pn, true, 0, 0⟩)],
   [(2, ⟨0, 3, [1], [], 0, 0⟩)], [0, 1, 2, 3], 4⟩

/-- Rank function for `gC8`: the child is lower than its parents. -/
def rankC8 : Nat → Nat := fun n => if n = 1 then 0 else 1

theorem c8_witness :
    isDescendantOfF 2 gC8 1 0 ≠ none ∧ isAncestorOfF 2 gC8 0 1 ≠ none :=
  c8_isDescendantOf_terminates gC8 rankC8 (by decide) 2 1 0 (by decide)

/-! ### C5: non-recursive Partnership.remove -/

/-- Invariant preserved by every operation of the removal cascade: parent
references only move towards `null`, the editor registry only shrinks,
node kinds are untouched, and every partnership's partner pair is
untouched. -/
structure RemPres (s t : GState) : Prop where
  parentMono : ∀ p, (getP t p).parentPartnership = none ∨
    (getP t p).parentPartnership = (getP s p).parentPartnership
  regShrink : ∀ j, j ∈ t.registry → j ∈ s.registry
  kindEq : ∀ p, (getP t p).kind = (getP s p).kind
  pairEq : ∀ i, (getPr t i).map (fun d => (d.partner1, d.partner2)) =
    (getPr s i).map (fun d => (d.partner1, d.partner2))

theorem remPres_refl (s : GState) : RemPres s s :=
  ⟨fun _ => Or.inr rfl, fun _ hj => hj, fun _ => rfl, fun _ => rfl⟩

theorem remPres_trans {s t u : GState} (h1 : RemPres s t) (h2 : RemPres t u) :
    RemPres s u := by
  refine ⟨fun p => ?_, fun j hj => h1.regShrink j (h2.regShrink j hj),
    fun p => (h2.kindEq p).trans (h1.kindEq p),
    fun i => (h2.pairEq i).trans (h1.pairEq i)⟩
  rcases h2.parentMono p with h | h
  · exact Or.inl h
  · rw [h]
    exact h1.parentMono p

theorem remPres_updPerson (s : GState) (c : Nat) (f : PersonData → PersonData)
    (hpar : ∀ pd, (f pd).parentPartnership = none ∨
      (f pd).parentPartnership = pd.parentPartnership)
    (hkind : ∀ pd, (f pd).kind = pd.kind) :
    RemPres s (updPerson s c f) := by
  refine ⟨fun p => ?_, fun j hj => hj, fun p => ?_, fun i => rfl⟩
  · by_cases hpc : p = c
    · subst hpc
      cases hl : alookup p s.persons with
      | none => rw [getP_updPerson_absent s p f hl]; simp [getP, hl]
      | some v =>
        rw [getP_updPerson_self s p v f hl]
        have : getP s p = v := by simp [getP, hl]
        rw [this]
        exact hpar v
    · rw [getP_updPerson_ne s c p f hpc]
      exact Or.inr rfl
  · by_cases hpc : p = c
    · subst hpc
      cases hl : alookup p s.persons with
      | none => rw [getP_updPerson_absent s p f hl]; simp [getP, hl]
      | some v =>
        rw [getP_updPerson_self s p v f hl]
        have : getP s p = v := by simp [getP, hl]
        rw [this]
        exact hkind v
    · rw [getP_updPerson_ne s c p f hpc]

theorem remPres_updPartnership (s : GState) (i : Nat)
    (f : PartnershipData → PartnershipData)
    (hf : ∀ d, (f d).partner1 = d.partner1 ∧ (f d).partner2 = d.partner2) :
    RemPres s (updPartnership s i f) := by
  refine ⟨fun p => Or.inr ?_, fun j hj => hj, fun p => ?_, fun j => ?_⟩
  · rw [getP_updPartnership]
  · rw [getP_updPartnership]
  · rw [getPr_updPartnership]
    by_cases hji : j = i
    · rw [if_pos hji]
      cases hl : getPr s j with
      | none => rfl
      | some d => simp [hf d]
    · rw [if_neg hji]

theorem remPres_registry_filter (s : GState) (pred : Nat → Bool) :
    RemPres s { s with registry := s.registry.filter pred } := by
  refine ⟨fun p => Or.inr rfl, fun j hj => ?_, fun p => rfl, fun i => rfl⟩
  exact List.mem_of_mem_filter hj

theorem setParentP_parent_self (s : GState) (c : Nat) :
    (getP (setParentP s c none) c).parentPartnership = none := by
  unfold setParentP
  cases hl : alookup c s.persons with
  | none => rw [getP_updPerson_absent s c _ hl]; rfl
  | some v => rw [getP_updPerson_self s c v _ hl]

theorem updPerson_parent_stable (s : GState) (q : Nat) (f : PersonData → PersonData)
    (hf : ∀ pd, (f pd).parentPartnership = pd.parentPartnership) (p : Nat) :
    (getP (updPerson s q f) p).parentPartnership = (getP s p).parentPartnership := by
  by_cases hpq : p = q
  · subst hpq
    cases hl : alookup p s.persons with
    | none => rw [getP_updPerson_absent s p f hl]; simp [getP, hl]
    | some v =>
      rw [getP_updPerson_self s p v f hl, hf]
      simp [getP, hl]
  · rw [getP_updPerson_ne s q p f hpq]

theorem removeChildP_pres (s : GState) (i c : Nat) (t : GState)
    (h : removeChildP s i c = .ok t) :
    RemPres s t ∧ (getP t c).parentPartnership = none ∧ t.registry = s.registry := by
  simp only [removeChildP] at h
  split at h
  · split at h
    · rw [Except.ok.injEq] at h
      subst h
      refine ⟨remPres_trans (remPres_trans
          (remPres_updPerson s c (fun pd => { pd with parentPartnership := none })
            (fun pd => Or.inl rfl) (fun pd => rfl))
          (remPres_updPartnership (setParentP s c none) i
            (fun d => { d with childrenPh := d.childrenPh.filter (fun j => decide (j ≠ c)) })
            (fun d => ⟨rfl, rfl⟩)))
          (remPres_updPerson _ c (fun pd => { pd with parentConnection := false })
            (fun pd => Or.inr rfl) (fun pd => rfl)), ?_, rfl⟩
      simp only [setConn]
      rw [updPerson_parent_stable _ c (fun d => { d with parentConnection := false })
        (fun pd => rfl) c, getP_updPartnership]
      exact setParentP_parent_self s c
    · exact absurd h (by simp)
  · split at h
    · rw [Except.ok.injEq] at h
      subst h
      refine ⟨remPres_trans (remPres_trans
          (remPres_updPerson s c (fun pd => { pd with parentPartnership := none })
            (fun pd => Or.inl rfl) (fun pd => rfl))
          (remPres_updPartnership (setParentP s c none) i
            (fun d => { d with childrenPn := d.childrenPn.filter (fun j => decide (j ≠ c)) })
            (fun d => ⟨rfl, rfl⟩)))
          (remPres_updPerson _ c (fun pd => { pd with parentConnection := false })
            (fun pd => Or.inr rfl) (fun pd => rfl)), ?_, rfl⟩
      simp only [setConn]
      rw [updPerson_parent_stable _ c (fun d => { d with parentConnection := false })
        (fun pd => rfl) c, getP_updPartnership]
      exact setParentP_parent_self s c
    · exact absurd h (by simp)

theorem except_step {α β : Type} (x : Except Err α) (f : α → Except Err β) (r : β)
    (h : (match x with
          | Except.error e => Except.error e
          | Except.ok a => f a) = Except.ok r) :
    ∃ a, x = Except.ok a ∧ f a = Except.ok r := by
  cases x with
  | error e => simp at h
  | ok a => exact ⟨a, rfl, h⟩

theorem opt_step {α β : Type} (x : Option α) (f : α → Except Err β) (r : β)
    (h : (match x with
          | none => Except.error Err.typeError
          | some a => f a) = Except.ok r) :
    ∃ a, x = some a ∧ f a = Except.ok r := by
  cases x with
  | none => simp at h
  | some a => exact ⟨a, rfl, h⟩


theorem prChildrenLoop_pres (rec : GState → RemCall → Except Err GState)
    (hrec : ∀ u rc t, rec u rc = .ok t → RemPres u t) (i : Nat) :
    ∀ (kids : List Nat) (s t : GState),
      prChildrenLoop rec i s kids = .ok t → RemPres s t := by
  intro kids
  induction kids with
  | nil =>
    intro s t h
    simp only [prChildrenLoop] at h
    rw [Except.ok.injEq] at h
    subst h
    exact remPres_refl s
  | cons c rest ih =>
    intro s t h
    simp only [prChildrenLoop] at h
    split at h
    · exact absurd h (by simp)
    · rename_i s2 hrc
      have hpres2 : RemPres s s2 :=
        remPres_trans (remPres_updPerson s c (fun pd => { pd with parentPartnership := none })
          (fun pd => Or.inl rfl) (fun pd => rfl)) (removeChildP_pres _ i c s2 hrc).1
      by_cases hk : (getP s2 c).kind = .ph
      · rw [if_pos hk] at h
        split at h
        · exact absurd h (by simp)
        · rename_i s3 hrp
          exact remPres_trans (remPres_trans hpres2 (hrec _ _ _ hrp)) (ih s3 t h)
      · rw [if_neg hk] at h
        exact remPres_trans hpres2 (ih s2 t h)

theorem remChildrenScan_pres (rec : GState → RemCall → Except Err GState)
    (hrec : ∀ u rc t, rec u rc = .ok t → RemPres u t) :
    ∀ (l : List Nat) (s : GState) (acc : List Nat) (r : GState × List Nat),
      remChildrenScan rec s l acc = .ok r → RemPres s r.1 := by
  intro l
  induction l with
  | nil =>
    intro s acc r h
    simp only [remChildrenScan] at h
    rw [Except.ok.injEq] at h
    subst h
    exact remPres_refl s
  | cons c rest ih =>
    intro s acc r h
    simp only [remChildrenScan] at h
    by_cases hk : (getP s c).kind = .ph
    · rw [if_pos hk] at h
      split at h
      · exact absurd h (by simp)
      · rename_i s1 hrp
        exact remPres_trans (hrec _ _ _ hrp) (ih s1 acc r h)
    · rw [if_neg hk] at h
      exact ih s (acc ++ [c]) r h

theorem remPartnershipsLoop_pres (rec : GState → RemCall → Except Err GState)
    (hrec : ∀ u rc t, rec u rc = .ok t → RemPres u t) (me : Nat) :
    ∀ (l : List Nat) (s : GState) (acc : List Nat) (r : GState × List Nat),
      remPartnershipsLoop rec me s l acc = .ok r → RemPres s r.1 := by
  intro l
  induction l with
  | nil =>
    intro s acc r h
    simp only [remPartnershipsLoop] at h
    rw [Except.ok.injEq] at h
    subst h
    exact remPres_refl s
  | cons i rest ih =>
    intro s acc r h
    simp only [remPartnershipsLoop] at h
    split at h
    · exact absurd h (by simp)
    · rename_i r1 hsc
      have hP1 : RemPres s r1.1 := remChildrenScan_pres rec hrec _ s acc r1 hsc
      split at h
      · exact absurd h (by simp)
      · rename_i w hpo
        split at h
        · exact absurd h (by simp)
        · rename_i s2 hst
          have hP2 : RemPres r1.1 s2 := by
            by_cases hk : (getP r1.1 w).kind = .ph
            · rw [if_pos hk] at hst
              exact hrec _ _ _ hst
            · rw [if_neg hk] at hst
              rw [Except.ok.injEq] at hst
              subst hst
              exact remPres_refl r1.1
          split at h
          · exact absurd h (by simp)
          · rename_i s3 hpr
            exact remPres_trans (remPres_trans (remPres_trans hP1 hP2) (hrec _ _ _ hpr))
              (ih s3 r1.2 r h)

theorem remRecursiveLoop_pres (rec : GState → RemCall → Except Err GState)
    (hrec : ∀ u rc t, rec u rc = .ok t → RemPres u t) (me : Nat) (rv : Bool) :
    ∀ (l : List Nat) (s t : GState),
      remRecursiveLoop rec me rv s l = .ok t → RemPres s t := by
  intro l
  induction l with
  | nil =>
    intro s t h
    simp only [remRecursiveLoop] at h
    rw [Except.ok.injEq] at h
    subst h
    exact remPres_refl s
  | cons n rest ih =>
    intro s t h
    simp only [remRecursiveLoop] at h
    split at h
    · exact absurd h (by simp)
    · rename_i b hir
      by_cases hb : b = true
      · subst hb
        rw [if_pos rfl] at h
        exact ih s t h
      · rw [if_neg hb] at h
        split at h
        · exact absurd h (by simp)
        · rename_i s1 hrp
          exact remPres_trans (hrec _ _ _ hrp) (ih s1 t h)

theorem personRemoveBody_pres (rec : GState → RemCall → Except Err GState)
    (hrec : ∀ u rc t, rec u rc = .ok t → RemPres u t)
    (s : GState) (me : Nat) (isRecursive removeVisuals : Bool) (t : GState)
    (h : personRemoveBody rec s me isRecursive removeVisuals = .ok t) : RemPres s t := by
  simp only [personRemoveBody] at h
  split at h
  · exact absurd h (by simp)
  · rename_i sA hsp
    have hPA : RemPres s sA := by
      split at hsp
      · rw [Except.ok.injEq] at hsp
        subst hsp
        exact remPres_refl s
      · rename_i pa pb hpar
        split at hsp
        · exact absurd hsp (by simp)
        · rename_i s1 hsa
          have hP1 : RemPres s s1 := by
            by_cases hk : (getP s pa).kind = .ph
            · rw [if_pos hk] at hsa
              exact hrec _ _ _ hsa
            · rw [if_neg hk] at hsa
              rw [Except.ok.injEq] at hsa
              subst hsa
              exact remPres_refl s
          have hP2 : RemPres s1 sA := by
            by_cases hk : (getP s1 pb).kind = .ph
            · rw [if_pos hk] at hsp
              exact hrec _ _ _ hsp
            · rw [if_neg hk] at hsp
              rw [Except.ok.injEq] at hsp
              subst hsp
              exact remPres_refl s1
          exact remPres_trans hP1 hP2
    split at h
    · exact absurd h (by simp)
    · rename_i rB hloop
      have hPB : RemPres sA rB.1 :=
        remPartnershipsLoop_pres rec hrec me _ sA [] rB hloop
      split at h
      · exact absurd h (by simp)
      · rename_i sC hstep
        have hPC : RemPres rB.1 sC := by
          by_cases hR : isRecursive = true
          · rw [if_pos hR] at hstep
            exact remRecursiveLoop_pres rec hrec me removeVisuals _ rB.1 sC hstep
          · rw [if_neg hR] at hstep
            rw [Except.ok.injEq] at hstep
            subst hstep
            exact remPres_refl rB.1
        split at h
        · exact absurd h (by simp)
        · rename_i sD hprel
          have hPD : RemPres sC sD := by
            split at hprel
            · rename_i j hj
              exact remPres_trans (remPres_refl sC) (removeChildP_pres sC j me sD hprel).1
            · rw [Except.ok.injEq] at hprel
              subst hprel
              exact remPres_refl sC
          rw [Except.ok.injEq] at h
          subst h
          exact remPres_trans (remPres_trans (remPres_trans (remPres_trans
            (remPres_trans hPA hPB) hPC) hPD)
            (remPres_registry_filter sD (fun j => decide (j ≠ me)))) (remPres_refl _)

theorem partnershipRemoveBody_pres (rec : GState → RemCall → Except Err GState)
    (hrec : ∀ u rc t, rec u rc = .ok t → RemPres u t)
    (s : GState) (i : Nat) (isRecursive : Bool) (t : GState)
    (h : partnershipRemoveBody rec s i isRecursive = .ok t) : RemPres s t := by
  simp only [partnershipRemoveBody] at h
  by_cases hR : isRecursive = true
  · rw [if_pos hR] at h
    rw [Except.ok.injEq] at h
    subst h
    exact remPres_refl s
  · rw [if_neg hR] at h
    split at h
    · exact absurd h (by simp)
    · rename_i d0 hpr0
      split at h
      · exact absurd h (by simp)
      · rename_i s2 hloop
        have hP1 : RemPres s { s with registry := s.registry.filter (fun j => decide (j ≠ i)) } :=
          remPres_registry_filter s _
        have hP2 : RemPres { s with registry := s.registry.filter (fun j => decide (j ≠ i)) } s2 :=
          prChildrenLoop_pres rec hrec i _ _ s2 hloop
        split at h
        · exact absurd h (by simp)
        · rename_i d hpr2
          rw [Except.ok.injEq] at h
          subst h
          have hP3 : RemPres s2 (removePartnershipP s2 d.partner1 i) :=
            remPres_updPerson s2 d.partner1
              (fun pd => { pd with partnerships := pd.partnerships.filter (fun j => decide (j ≠ i)) })
              (fun pd => Or.inr rfl) (fun pd => rfl)
          have hP4 : RemPres (removePartnershipP s2 d.partner1 i)
              (removePartnershipP (removePartnershipP s2 d.partner1 i) d.partner2 i) :=
            remPres_updPerson (removePartnershipP s2 d.partner1 i) d.partner2
              (fun pd => { pd with partnerships := pd.partnerships.filter (fun j => decide (j ≠ i)) })
              (fun pd => Or.inr rfl) (fun pd => rfl)
          exact remPres_trans (remPres_trans (remPres_trans hP1 hP2) hP3) hP4

theorem removeF_pres : ∀ (fuel : Nat) (s : GState) (rc : RemCall) (t : GState),
    removeF fuel s rc = .ok t → RemPres s t := by
  intro fuel
  induction fuel with
  | zero => intro s rc t h; simp [removeF] at h
  | succ fuel ih =>
    intro s rc t h
    cases rc with
    | person me a b =>
      simp only [removeF] at h
      exact personRemoveBody_pres (removeF fuel) (fun u rc' t' h' => ih u rc' t' h')
        s me a b t h
    | partnership i a =>
      simp only [removeF] at h
      exact partnershipRemoveBody_pres (removeF fuel) (fun u rc' t' h' => ih u rc' t' h')
        s i a t h

theorem personRemoveBody_unregisters (rec : GState → RemCall → Except Err GState)
    (s : GState) (me : Nat) (a b : Bool) (t : GState)
    (h : personRemoveBody rec s me a b = .ok t) : me ∉ t.registry := by
  simp only [personRemoveBody] at h
  split at h
  · exact absurd h (by simp)
  · split at h
    · exact absurd h (by simp)
    · split at h
      · exact absurd h (by simp)
      · split at h
        · exact absurd h (by simp)
        · rename_i sD hprel
          rw [Except.ok.injEq] at h
          subst h
          simp [List.mem_filter]

theorem removeF_person_unregisters (fuel : Nat) (s : GState) (me : Nat) (a b : Bool)
    (t : GState) (h : removeF fuel s (.person me a b) = .ok t) : me ∉ t.registry := by
  cases fuel with
  | zero => simp [removeF] at h
  | succ fuel =>
    simp only [removeF] at h
    exact personRemoveBody_unregisters _ s me a b t h

theorem prChildrenLoop_clears (rec : GState → RemCall → Except Err GState)
    (hrecP : ∀ u rc t, rec u rc = .ok t → RemPres u t)
    (hrecR : ∀ u c a b t, rec u (.person c a b) = .ok t → c ∉ t.registry) (i : Nat) :
    ∀ (kids : List Nat) (s t : GState), prChildrenLoop rec i s kids = .ok t →
      RemPres s t ∧
      (∀ c ∈ kids, (getP t c).parentPartnership = none) ∧
      (∀ c ∈ kids, (getP s c).kind = .ph → c ∉ t.registry) := by
  intro kids
  induction kids with
  | nil =>
    intro s t h
    simp only [prChildrenLoop] at h
    rw [Except.ok.injEq] at h
    subst h
    exact ⟨remPres_refl s, by simp, by simp⟩
  | cons c rest ih =>
    intro s t h
    simp only [prChildrenLoop] at h
    split at h
    · exact absurd h (by simp)
    · rename_i s2 hrc
      obtain ⟨hpres2', hpar2, hreg2⟩ := removeChildP_pres _ i c s2 hrc
      have hpres2 : RemPres s s2 :=
        remPres_trans (remPres_updPerson s c (fun pd => { pd with parentPartnership := none })
          (fun pd => Or.inl rfl) (fun pd => rfl)) hpres2'
      have hkind2 : (getP s2 c).kind = (getP s c).kind := hpres2.kindEq c
      by_cases hk : (getP s2 c).kind = .ph
      · rw [if_pos hk] at h
        split at h
        · exact absurd h (by simp)
        · rename_i s3 hrp
          have hP3 : RemPres s2 s3 := hrecP _ _ _ hrp
          obtain ⟨hPt, hparAll, hregAll⟩ := ih s3 t h
          refine ⟨remPres_trans (remPres_trans hpres2 hP3) hPt, ?_, ?_⟩
          · intro c' hc'
            rcases List.mem_cons.1 hc' with hceq | hcmem
            · subst hceq
              have h3 : (getP s3 c').parentPartnership = none := by
                rcases hP3.parentMono c' with hx | hx
                · exact hx
                · rw [hx, hpar2]
              rcases hPt.parentMono c' with hx | hx
              · exact hx
              · rw [hx, h3]
            · exact hparAll c' hcmem
          · intro c' hc' hkc'
            rcases List.mem_cons.1 hc' with hceq | hcmem
            · subst hceq
              have h3 : c' ∉ s3.registry := hrecR s2 c' false true s3 hrp
              intro hmem
              exact h3 (hPt.regShrink c' hmem)
            · have hk3 : (getP s3 c').kind = .ph := by
                rw [(remPres_trans hpres2 hP3).kindEq c']
                exact hkc'
              exact hregAll c' hcmem hk3
      · rw [if_neg hk] at h
        obtain ⟨hPt, hparAll, hregAll⟩ := ih s2 t h
        refine ⟨remPres_trans hpres2 hPt, ?_, ?_⟩
        · intro c' hc'
          rcases List.mem_cons.1 hc' with hceq | hcmem
          · subst hceq
            rcases hPt.parentMono c' with hx | hx
            · exact hx
            · rw [hx, hpar2]
          · exact hparAll c' hcmem
        · intro c' hc' hkc'
          rcases List.mem_cons.1 hc' with hceq | hcmem
          · subst hceq
            rw [hkind2] at hk
            exact absurd hkc' hk
          · have hk2 : (getP s2 c').kind = .ph := by
              rw [hpres2.kindEq c']
              exact hkc'
            exact hregAll c' hcmem hk2

theorem removePartnershipP_getP (s : GState) (p i r : Nat) :
    (getP (removePartnershipP s p i) r).partnerships =
      if r = p then (getP s r).partnerships.filter (fun j => decide (j ≠ i))
      else (getP s r).partnerships := by
  simp only [removePartnershipP]
  by_cases hrp : r = p
  · subst hrp
    rw [if_pos rfl]
    cases hl : alookup r s.persons with
    | none =>
      rw [getP_updPerson_absent s r _ hl]
      simp [getP, hl, personDefault]
    | some v =>
      rw [getP_updPerson_self s r v _ hl]
      simp [getP, hl]
  · rw [if_neg hrp]
    rw [getP_updPerson_ne s p r _ hrp]

theorem removePartnershipP_parent (s : GState) (p i r : Nat) :
    (getP (removePartnershipP s p i) r).parentPartnership =
      (getP s r).parentPartnership :=
  updPerson_parent_stable s p
    (fun pd => { pd with partnerships := pd.partnerships.filter (fun j => decide (j ≠ i)) })
    (fun _pd => rfl) r

theorem not_mem_filter_ne_self (l : List Nat) (i : Nat) :
    i ∉ l.filter (fun j => decide (j ≠ i)) := by
  intro hmem
  rw [List.mem_filter] at hmem
  simp at hmem


/-- C5.  After a non-recursive `Partnership.remove`, the partnership is
absent from both former partners' partnership lists, every node that was a
child of it has its `parentPartnership` cleared, and placeholder children
are additionally removed from the editor's registry entirely. -/
theorem c5_partnership_remove (fuel : Nat) (s : GState) (i : Nat) (d : PartnershipData)
    (s' : GState) (hd : getPr s i = some d)
    (h : partnershipRemoveF fuel s i false = .ok s') :
    (i ∉ (getP s' d.partner1).partnerships ∧ i ∉ (getP s' d.partner2).partnerships) ∧
    (∀ c ∈ d.childrenPn ++ d.childrenPh, (getP s' c).parentPartnership = none) ∧
    (∀ c ∈ d.childrenPh, (getP s c).kind = .ph → c ∉ s'.registry) := by
  cases fuel with
  | zero => simp [partnershipRemoveF, removeF] at h
  | succ fuel =>
    simp only [partnershipRemoveF, removeF, partnershipRemoveBody] at h
    rw [if_neg (by decide : ¬(false = true))] at h
    split at h
    · rename_i hpr0
      rw [hd] at hpr0
      exact absurd hpr0 (by simp)
    · rename_i d0 hpr0
      have h1 : getPr { s with registry := s.registry.filter (fun j => decide (j ≠ i)) } i =
          some d := hd
      split at h
      · exact absurd h (by simp)
      · rename_i s2 hloop
        have hkidseq : getChildrenAll
            { s with registry := s.registry.filter (fun j => decide (j ≠ i)) } i =
            d.childrenPn ++ d.childrenPh := by
          unfold getChildrenAll
          rw [h1]
        obtain ⟨hP12, hparAll, hregAll⟩ :=
          prChildrenLoop_clears (removeF fuel)
            (fun u rc t h' => removeF_pres fuel u rc t h')
            (fun u c a b t h' => removeF_person_unregisters fuel u c a b t h') i
            _ _ s2 hloop
        rw [hkidseq] at hparAll
        rw [hkidseq] at hregAll
        split at h
        · rename_i hpr2
          have hp := hP12.pairEq i
          rw [hpr2, h1] at hp
          simp at hp
        · rename_i d2 hpr2
          have hp := hP12.pairEq i
          rw [hpr2, h1] at hp
          have hp' : d2.partner1 = d.partner1 ∧ d2.partner2 = d.partner2 := by
            simpa using hp
          obtain ⟨hp1, hp2⟩ := hp'
          rw [Except.ok.injEq] at h
          subst h
          refine ⟨⟨?_, ?_⟩, ?_, ?_⟩
          · rw [← hp1]
            by_cases hpp : d2.partner1 = d2.partner2
            · rw [removePartnershipP_getP]
              split
              · exact not_mem_filter_ne_self _ i
              · rw [removePartnershipP_getP, if_pos rfl]
                exact not_mem_filter_ne_self _ i
            · rw [removePartnershipP_getP, if_neg hpp, removePartnershipP_getP, if_pos rfl]
              exact not_mem_filter_ne_self _ i
          · rw [← hp2]
            rw [removePartnershipP_getP, if_pos rfl]
            exact not_mem_filter_ne_self _ i
          · intro c hc
            rw [removePartnershipP_parent, removePartnershipP_parent]
            exact hparAll c hc
          · intro c hc hkc
            exact hregAll c (List.mem_append_right _ hc) hkc

/-- Partnership 1 between persons 0 and 4, with real child 2 and
placeholder child 3 (both with live parent connections). -/
def gC5 : GState :=
  ⟨[(0, ⟨.U, [1], none, .pn, false, 0, 0⟩), (4, ⟨.U, [1], none, .pn, false, 0, 0⟩),
    (2, ⟨.U, [], some 1, .pn, true, 0, 0⟩), (3, ⟨.U, [], some 1, .ph, true, 0, 0⟩)],
   [(1, ⟨0, 4, [2], [3], 0, 0⟩)], [0, 1, 2, 3, 4], 5⟩

/-- `gC5` after `partnership 1 .remove()`: both partners' lists emptied,
children unlinked, placeholder 3 deregistered. -/
def gC5r : GState :=
  ⟨[(0, ⟨.U, [], none, .pn, false, 0, 0⟩), (4, ⟨.U, [], none, .pn, false, 0, 0⟩),
    (2, ⟨.U, [], none, .pn, false, 0, 0⟩), (3, ⟨.U, [], none, .ph, false, 0, 0⟩)],
   [(1, ⟨0, 4, [], [], 0, 0⟩)], [0, 2, 4], 5⟩

theorem c5_witness :
    (1 ∉ (getP gC5r 0).partnerships ∧ 1 ∉ (getP gC5r 4).partnerships) ∧
    (∀ c ∈ [2] ++ [3], (getP gC5r c).parentPartnership = none) ∧
    (∀ c ∈ [3], (getP gC5 c).kind = .ph → c ∉ gC5r.registry) :=
  c5_partnership_remove 5 gC5 1 ⟨0, 4, [2], [3], 0, 0⟩ gC5r (by decide) (by rfl)
